import Mathlib

/-!
Verification development for the ECommApp marketplace.

The repository contains two parallel implementations of the same design:

* a distributed variant: `src/backend/customer_db_server.py` (accounts,
  sessions, carts) and `src/backend/product_db_server.py` (catalog, search),
  fronted by thin gateways in `src/frontend/`;
* a consolidated variant: `src/server/` (`state.py`, `db/inmemory.py`,
  `handlers/buyer.py`, `handlers/seller.py`) holding all state in one
  process.

Both are embedded below.  Python `dict`s are modelled as association lists
with first-match lookup and replace-first insertion (Python dicts never hold
duplicate keys, and all states built by the modelled operations keep keys
distinct).  Python strings are modelled as lists of Unicode code points
(`Str`); `str.lower()` and whitespace/alphanumeric classification are
modelled on the ASCII range, which is all the source exercises.  Python
floats (prices, timestamps) are modelled as rationals; Python's unbounded
`int` as `Int`.  Opaque uuid tokens are modelled as `Nat` parameters chosen
by the caller of the operation.
-/

set_option linter.unusedVariables false

/-! ### Association lists modelling Python dicts -/

/-- Lookup of the first binding of a key, mirroring `d.get(k)`. -/
def alookup {κ α : Type} [DecidableEq κ] : List (κ × α) → κ → Option α
  | [], _ => none
  | (k0, v0) :: m, k => if k = k0 then some v0 else alookup m k

/-- Update-or-append, mirroring `d[k] = v` (existing keys keep their
position, new keys are appended at the end). -/
def aset {κ α : Type} [DecidableEq κ] : List (κ × α) → κ → α → List (κ × α)
  | [], k, v => [(k, v)]
  | (k0, v0) :: m, k, v => if k = k0 then (k, v) :: m else (k0, v0) :: aset m k v

/-- Removal of the first binding of a key, mirroring `d.pop(k, None)`. -/
def aerase {κ α : Type} [DecidableEq κ] : List (κ × α) → κ → List (κ × α)
  | [], _ => []
  | (k0, v0) :: m, k => if k = k0 then m else (k0, v0) :: aerase m k

theorem alookup_aset_self {κ α : Type} [DecidableEq κ] (m : List (κ × α)) (k : κ) (v : α) :
    alookup (aset m k v) k = some v := by
  induction m with
  | nil => simp [aset, alookup]
  | cons e m ih =>
    obtain ⟨k0, v0⟩ := e
    by_cases h : k = k0 <;> simp [aset, alookup, h, ih]

theorem alookup_aset_ne {κ α : Type} [DecidableEq κ] (m : List (κ × α)) (k k' : κ) (v : α)
    (h : k' ≠ k) : alookup (aset m k v) k' = alookup m k' := by
  induction m with
  | nil => simp [aset, alookup, h]
  | cons e m ih =>
    obtain ⟨k0, v0⟩ := e
    by_cases h0 : k = k0
    · subst h0
      simp [aset, alookup, h]
    · by_cases h1 : k' = k0 <;> simp [aset, alookup, h0, h1, ih]

theorem alookup_aerase_ne {κ α : Type} [DecidableEq κ] (m : List (κ × α)) (k k' : κ)
    (h : k' ≠ k) : alookup (aerase m k) k' = alookup m k' := by
  induction m with
  | nil => simp [aerase]
  | cons e m ih =>
    obtain ⟨k0, v0⟩ := e
    by_cases h0 : k = k0
    · subst h0
      simp [aerase, alookup, h]
    · by_cases h1 : k' = k0 <;> simp [aerase, alookup, h0, h1, ih]

theorem mem_aset {κ α : Type} [DecidableEq κ] {m : List (κ × α)} {k : κ} {v : α} {e : κ × α}
    (h : e ∈ aset m k v) : e = (k, v) ∨ e ∈ m := by
  induction m with
  | nil => simpa [aset] using h
  | cons e0 m ih =>
    obtain ⟨k0, v0⟩ := e0
    by_cases h0 : k = k0
    · simp only [aset, if_pos h0, List.mem_cons] at h
      rcases h with h | h
      · exact Or.inl h
      · exact Or.inr (List.mem_cons_of_mem _ h)
    · simp only [aset, if_neg h0, List.mem_cons] at h
      rcases h with h | h
      · exact Or.inr (by simp [h])
      · rcases ih h with h' | h'
        · exact Or.inl h'
        · exact Or.inr (List.mem_cons_of_mem _ h')

theorem aerase_sublist {κ α : Type} [DecidableEq κ] (m : List (κ × α)) (k : κ) :
    List.Sublist (aerase m k) m := by
  induction m with
  | nil => simp [aerase]
  | cons e0 m ih =>
    obtain ⟨k0, v0⟩ := e0
    by_cases h0 : k = k0
    · simp only [aerase, if_pos h0]
      exact List.sublist_cons_self _ _
    · simp only [aerase, if_neg h0]
      exact ih.cons₂ (k0, v0)

theorem mem_aerase {κ α : Type} [DecidableEq κ] {m : List (κ × α)} {k : κ} {e : κ × α}
    (h : e ∈ aerase m k) : e ∈ m :=
  (aerase_sublist m k).mem h

theorem aset_keys_nodup {κ α : Type} [DecidableEq κ] {m : List (κ × α)} (k : κ) (v : α)
    (h : (m.map Prod.fst).Nodup) : ((aset m k v).map Prod.fst).Nodup := by
  induction m with
  | nil => simp [aset]
  | cons e0 m ih =>
    obtain ⟨k0, v0⟩ := e0
    simp only [List.map_cons, List.nodup_cons] at h
    by_cases h0 : k = k0
    · subst h0
      simpa [aset] using h
    · simp only [aset, if_neg h0, List.map_cons, List.nodup_cons]
      refine ⟨fun hmem => ?_, ih h.2⟩
      have : ∀ e ∈ aset m k v, e.1 = k0 → False := by
        intro e he h1
        rcases mem_aset he with rfl | he'
        · exact h0 (show k = k0 from h1)
        · exact h.1 (h1 ▸ List.mem_map_of_mem Prod.fst he')
      rcases List.mem_map.mp hmem with ⟨e, he, h1⟩
      exact this e he h1

theorem alookup_eq_some_of_mem_of_nodup {κ α : Type} [DecidableEq κ]
    {m : List (κ × α)} (h : (m.map Prod.fst).Nodup) {e : κ × α} (he : e ∈ m) :
    alookup m e.1 = some e.2 := by
  induction m with
  | nil => simp at he
  | cons e0 m ih =>
    obtain ⟨k0, v0⟩ := e0
    simp only [List.map_cons, List.nodup_cons] at h
    rcases List.mem_cons.mp he with rfl | he'
    · simp [alookup]
    · have hne : e.1 ≠ k0 := by
        intro h1
        exact h.1 (h1 ▸ List.mem_map_of_mem Prod.fst he')
      simp [alookup, hne, ih h.2 he']

theorem alookup_eq_none_of_not_mem_keys {κ α : Type} [DecidableEq κ]
    {m : List (κ × α)} {k : κ} (h : k ∉ m.map Prod.fst) : alookup m k = none := by
  induction m with
  | nil => simp [alookup]
  | cons e0 m ih =>
    obtain ⟨k0, v0⟩ := e0
    simp only [List.map_cons, List.mem_cons] at h
    push_neg at h
    simp [alookup, h.1, ih h.2]

theorem alookup_aerase_self_of_nodup {κ α : Type} [DecidableEq κ]
    {m : List (κ × α)} (k : κ) (h : (m.map Prod.fst).Nodup) :
    alookup (aerase m k) k = none := by
  induction m with
  | nil => simp [aerase, alookup]
  | cons e0 m ih =>
    obtain ⟨k0, v0⟩ := e0
    simp only [List.map_cons, List.nodup_cons] at h
    by_cases h0 : k = k0
    · subst h0
      simpa [aerase] using alookup_eq_none_of_not_mem_keys h.1
    · simp [aerase, alookup, h0, ih h.2]

/-! ### Stable key-based sorting, modelling Python `sorted(xs, key=...)` -/

/-- Python's `sorted` is a stable sort by a key tuple; `List.insertionSort`
with the key's non-strict order is likewise stable, so the two agree. -/
def sortByKey {α κ : Type} [LinearOrder κ] (key : α → κ) (l : List α) : List α :=
  letI : DecidableRel (fun a b : α => key a ≤ key b) :=
    fun a b => inferInstanceAs (Decidable (key a ≤ key b))
  List.insertionSort (fun a b => key a ≤ key b) l

theorem sortByKey_perm {α κ : Type} [LinearOrder κ] (key : α → κ) (l : List α) :
    (sortByKey key l).Perm l := by
  unfold sortByKey
  exact List.perm_insertionSort _ l

theorem sortByKey_sorted {α κ : Type} [LinearOrder κ] (key : α → κ) (l : List α) :
    (sortByKey key l).Sorted (fun a b => key a ≤ key b) := by
  unfold sortByKey
  letI : DecidableRel (fun a b : α => key a ≤ key b) :=
    fun a b => inferInstanceAs (Decidable (key a ≤ key b))
  haveI : IsTotal α (fun a b => key a ≤ key b) := ⟨fun a b => le_total (key a) (key b)⟩
  haveI : IsTrans α (fun a b => key a ≤ key b) := ⟨fun a b c h1 h2 => le_trans h1 h2⟩
  exact List.sorted_insertionSort _ l

theorem sorted_lt_of_sorted_le_nodup {α κ : Type} [LinearOrder κ] {key : α → κ} {l : List α}
    (hs : l.Sorted (fun a b => key a ≤ key b)) (hn : (l.map key).Nodup) :
    l.Sorted (fun a b => key a < key b) := by
  have hp : l.Pairwise (fun a b => key a ≠ key b) := (List.pairwise_map).mp hn
  exact (hs.and hp).imp (fun h => lt_of_le_of_ne h.1 h.2)

theorem eq_sortByKey_of_perm_of_sorted {α κ : Type} [LinearOrder κ] {key : α → κ}
    {l res : List α} (hn : (l.map key).Nodup) (hperm : res.Perm l)
    (hsort : res.Sorted (fun a b => key a ≤ key b)) : res = sortByKey key l := by
  haveI : IsAntisymm α (fun a b => key a < key b) :=
    ⟨fun a b h1 h2 => absurd h2 (not_lt.mpr h1.le)⟩
  have hperm2 : res.Perm (sortByKey key l) := hperm.trans (sortByKey_perm key l).symm
  have hnres : (res.map key).Nodup := ((hperm.map key).nodup_iff).mpr hn
  have hnsort : ((sortByKey key l).map key).Nodup :=
    (((sortByKey_perm key l).map key).nodup_iff).mpr hn
  exact List.eq_of_perm_of_sorted hperm2
    (sorted_lt_of_sorted_le_nodup hsort hnres)
    (sorted_lt_of_sorted_le_nodup (sortByKey_sorted key l) hnsort)

/-! ### Data model (`src/common/models.py`) -/

/-- Python strings as lists of Unicode code points. -/
abbrev Str := List Nat

/-- Feedback counters, `models.Feedback`. -/
structure Feedback where
  thumbs_up : Int
  thumbs_down : Int
deriving DecidableEq

/-- Composite item identifier, `models.ItemId`. -/
structure ItemId where
  category : Int
  number : Int
deriving DecidableEq

/-- Item condition, `models.ItemCondition` (the literal type {new, used}). -/
inductive Cond
  | new
  | used
deriving DecidableEq

/-- A catalog item, `models.Item` (prices and timestamps are Python floats,
modelled as rationals). -/
structure Item where
  item_id : ItemId
  seller_id : Int
  name : Str
  category : Int
  keywords : List Str
  condition : Cond
  sale_price : ℚ
  quantity : Int
  feedback : Feedback
  created_at : ℚ
deriving DecidableEq

/-- Feedback score `thumbs_up - thumbs_down`, as computed inside
`ProductDB.search`. -/
def fscore (it : Item) : Int := it.feedback.thumbs_up - it.feedback.thumbs_down

/-! ### Catalog search, backend variant (`ProductDB.search`) -/

/-- ASCII case folding, modelling `str.lower()` (the source only exercises
ASCII data). -/
def lowerC (c : Nat) : Nat := if 65 ≤ c ∧ c ≤ 90 then c + 32 else c

/-- Lowercasing of a whole string. -/
def lowerS (s : Str) : Str := s.map lowerC

/-- Characters matched by the token class of `re.split(r"[^a-z0-9]+", ...)`
after lowering: lowercase ASCII letters and digits. -/
def isLowerAlnum (c : Nat) : Bool := (97 ≤ c && c ≤ 122) || (48 ≤ c && c ≤ 57)

/-- Splitter for `ProductDB._tokenize_name`: groups maximal runs of
alphanumeric characters, dropping empty pieces.  `cur` is the current run,
reversed. -/
def splitRuns : List Nat → List Nat → List Str
  | [], cur => if cur.isEmpty then [] else [cur.reverse]
  | c :: cs, cur =>
    if isLowerAlnum c then splitRuns cs (c :: cur)
    else if cur.isEmpty then splitRuns cs [] else cur.reverse :: splitRuns cs []

/-- `ProductDB._tokenize_name`: lowercase, then split on non-alphanumeric
runs, dropping empties. -/
def tokenizeName (name : Str) : List Str := splitRuns (lowerS name) []

/-- ASCII whitespace, modelling the characters stripped by `str.strip()`. -/
def isSpaceC (c : Nat) : Bool := c = 32 || c = 9 || c = 10 || c = 13 || c = 11 || c = 12

/-- Query normalisation in `ProductDB.search`:
`[str(k).lower() for k in (keywords or []) if str(k).strip()]`. -/
def normQuery (keywords : List Str) : List Str :=
  (keywords.filter (fun k => !(k.all isSpaceC))).map lowerS

/-- `match_score` from `ProductDB.search`: the number of query keywords that
appear among the item's lowercased keyword strings or among the tokens of
its lowercased name. -/
def matchScore (q : List Str) (it : Item) : Nat :=
  (q.filter (fun k =>
    decide (k ∈ it.keywords.map lowerS ∨ k ∈ tokenizeName it.name))).length

/-- Validation failures raised by the search endpoints. -/
inductive SearchErr
  | tooManyKeywords
  | keywordTooLong
deriving DecidableEq

/-- Sort key of the keywordless branch of `ProductDB.search`:
`(-score, price, category, number)` compared lexicographically, exactly as
Python compares the key tuples. -/
def keyNoKw (it : Item) : Lex (Int × Lex (ℚ × Lex (Int × Int))) :=
  toLex (-(fscore it), toLex (it.sale_price, toLex (it.item_id.category, it.item_id.number)))

/-- Sort key of the keyword branch of `ProductDB.search`, applied to the
`(match_score, item)` pairs the source builds:
`(-match_score, -feedback_score, price, category, number)`. -/
def keyKw (p : Nat × Item) : Lex (Int × Lex (Int × Lex (ℚ × Lex (Int × Int)))) :=
  toLex (-(p.1 : Int), keyNoKw p.2)

/-- Candidate filter shared by both search implementations: items of the
requested category with positive quantity. -/
def candidatesIn (items : List Item) (category : Int) : List Item :=
  items.filter (fun it => decide (it.category = category ∧ 0 < it.quantity))

/-- The scored candidate list the keyword branch of `ProductDB.search`
builds: `(match_score, item)` pairs for candidates with positive score. -/
def scoredPairs (q : List Str) (l : List Item) : List (Nat × Item) :=
  l.filterMap fun it =>
    let s := matchScore q it
    if 0 < s then some (s, it) else none

/-- `ProductDB.search` over the values of the item table.  The `sorted`
calls of the source are modelled by the stable `sortByKey`. -/
def pdbSearch (items : List Item) (category : Int) (keywords : List Str) :
    Except SearchErr (List Item) :=
  let q := normQuery keywords
  if 5 < q.length then .error .tooManyKeywords
  else if q.any (fun k => 8 < k.length) then .error .keywordTooLong
  else
    let cands := candidatesIn items category
    if q.isEmpty then .ok (sortByKey keyNoKw cands)
    else .ok ((sortByKey keyKw (scoredPairs q cands)).map Prod.snd)

/-! ### Catalog search, consolidated gateway variant
(`handlers/buyer.py`, action `search_items_for_sale`) -/

/-- `_score_item_keywords` from `handlers/buyer.py`: counts query keywords
found among the item's lowercased keywords only (item name tokens are not
consulted). -/
def gwScore (itemKeywords : List Str) (q : List Str) : Nat :=
  if q.isEmpty then 0
  else (q.filter (fun k => decide (lowerS k ∈ itemKeywords.map lowerS))).length

/-- Sort key used by the gateway search:
`(-match_score, -thumbs_up, -created_at)` (thumbs_up and created_at are
Python floats there). -/
def gwKey (p : Nat × Item) : Lex (Int × Lex (ℚ × ℚ)) :=
  toLex (-(p.1 : Int), toLex (-(p.2.feedback.thumbs_up : ℚ), -p.2.created_at))

/-- Gateway search from `handlers/buyer.py` (keyword validation per
`_parse_keywords`, which drops empty entries first). -/
def gwSearch (items : List Item) (category : Int) (keywords : List Str) :
    Except SearchErr (List Item) :=
  let kws := keywords.filter (fun k => !k.isEmpty)
  if 5 < kws.length then .error .tooManyKeywords
  else if kws.any (fun k => 8 < k.length) then .error .keywordTooLong
  else
    let cands := candidatesIn items category
    let scored := cands.filterMap (fun it =>
      let s := gwScore it.keywords kws
      if !kws.isEmpty && s = 0 then none else some (s, it))
    .ok ((sortByKey gwKey scored).map Prod.snd)

/-! ### The ranking order stated by the specification -/

/-- Three-way tie-break order from the spec's keywordless ranking: feedback
score descending, then price ascending, then `(category, number)`
ascending. -/
def specLeNoKw (a b : Item) : Prop :=
  fscore b < fscore a ∨
    (fscore a = fscore b ∧
      (a.sale_price < b.sale_price ∨
        (a.sale_price = b.sale_price ∧
          (a.item_id.category < b.item_id.category ∨
            (a.item_id.category = b.item_id.category ∧ a.item_id.number ≤ b.item_id.number)))))

/-- Keyword ranking order from the spec: `match_score` descending, then the
keywordless tie-break. -/
def specLeKw (q : List Str) (a b : Item) : Prop :=
  matchScore q b < matchScore q a ∨ (matchScore q a = matchScore q b ∧ specLeNoKw a b)

/-- The spec's wording of `match_score`: the number of query keywords that
case-insensitively equal one of the item's stored keyword strings or one of
the lowercase tokens of the item's name. -/
def specMatchScore (q : List Str) (it : Item) : Nat :=
  (q.filter (fun k =>
    decide ((∃ kw ∈ it.keywords, lowerS k = lowerS kw) ∨
      ∃ t ∈ tokenizeName it.name, lowerS k = t))).length

theorem keyNoKw_le_iff (a b : Item) : keyNoKw a ≤ keyNoKw b ↔ specLeNoKw a b := by
  unfold keyNoKw specLeNoKw
  rw [Prod.Lex.le_iff]
  simp only [Prod.Lex.le_iff, Prod.Lex.lt_iff]
  constructor
  · rintro (h | ⟨h1, h2⟩)
    · exact Or.inl (by omega)
    · exact Or.inr ⟨by omega, by simpa using h2⟩
  · rintro (h | ⟨h1, h2⟩)
    · exact Or.inl (by omega)
    · exact Or.inr ⟨by omega, by simpa using h2⟩

instance {e a : Type} [DecidableEq e] [DecidableEq a] : DecidableEq (Except e a)
  | .ok x, .ok y =>
    if h : x = y then isTrue (by rw [h]) else isFalse (by intro hc; cases hc; exact h rfl)
  | .error x, .error y =>
    if h : x = y then isTrue (by rw [h]) else isFalse (by intro hc; cases hc; exact h rfl)
  | .ok _, .error _ => isFalse (by intro h; cases h)
  | .error _, .ok _ => isFalse (by intro h; cases h)

instance (a b : Item) : Decidable (specLeNoKw a b) := by
  unfold specLeNoKw
  infer_instance

instance (q : List Str) (a b : Item) : Decidable (specLeKw q a b) := by
  unfold specLeKw
  infer_instance

/-! ### Claim C1: keywordless search ranking -/

theorem sorted_specLeNoKw_of_key {l : List Item}
    (h : l.Sorted fun a b => keyNoKw a ≤ keyNoKw b) : l.Sorted specLeNoKw :=
  h.imp fun hab => (keyNoKw_le_iff _ _).mp hab

theorem sorted_key_of_specLeNoKw {l : List Item} (h : l.Sorted specLeNoKw) :
    l.Sorted fun a b => keyNoKw a ≤ keyNoKw b :=
  h.imp fun hab => (keyNoKw_le_iff _ _).mpr hab

/-- Projection recovering the item id from the keywordless sort key. -/
def keyNoKwId (k : Lex (Int × Lex (ℚ × Lex (Int × Int)))) : ItemId :=
  ⟨(ofLex (ofLex (ofLex k).2).2).1, (ofLex (ofLex (ofLex k).2).2).2⟩

theorem keyNoKw_nodup {l : List Item} (h : (l.map Item.item_id).Nodup) :
    (l.map keyNoKw).Nodup := by
  apply List.Nodup.of_map keyNoKwId
  rw [List.map_map]
  have he : keyNoKwId ∘ keyNoKw = Item.item_id := funext fun it => rfl
  rw [he]
  exact h

theorem candidatesIn_ids_nodup {items : List Item} (h : (items.map Item.item_id).Nodup)
    (category : Int) : ((candidatesIn items category).map Item.item_id).Nodup :=
  h.sublist ((List.filter_sublist items).map Item.item_id)

/-- Scenario items from the spec: X(price 50, score +3), Y(price 10, score
+3), Z(price 5, score +1), all in category 1. -/
def c1ItemX : Item :=
  { item_id := ⟨1, 1⟩, seller_id := 1, name := [120], category := 1, keywords := [],
    condition := .new, sale_price := 50, quantity := 1, feedback := ⟨3, 0⟩, created_at := 0 }

/-- Scenario item Y. -/
def c1ItemY : Item :=
  { item_id := ⟨1, 2⟩, seller_id := 1, name := [121], category := 1, keywords := [],
    condition := .new, sale_price := 10, quantity := 1, feedback := ⟨3, 0⟩, created_at := 0 }

/-- Scenario item Z. -/
def c1ItemZ : Item :=
  { item_id := ⟨1, 3⟩, seller_id := 1, name := [122], category := 1, keywords := [],
    condition := .new, sale_price := 5, quantity := 1, feedback := ⟨1, 0⟩, created_at := 0 }

/-- Scenario catalog for claim C1. -/
def c1Items : List Item := [c1ItemX, c1ItemY, c1ItemZ]

/-- Claim C1, amended to the backend catalog service `ProductDB.search`:
a keywordless search returns exactly the in-category, in-stock items,
sorted by feedback score descending, then price ascending, then
`(category, number)` ascending; with distinct item ids this characterises
the result uniquely; and on the spec's scenario the order is Y, X, Z.
(The consolidated gateway's own search handler orders differently; see the
counterexample.) -/
theorem c1_search_no_keywords_ranking :
    (∀ (items : List Item) (category : Int),
      ∃ res, pdbSearch items category [] = Except.ok res ∧
        res.Perm (candidatesIn items category) ∧
        res.Sorted specLeNoKw ∧
        ((items.map Item.item_id).Nodup →
          ∀ other : List Item, other.Perm (candidatesIn items category) →
            other.Sorted specLeNoKw → other = res)) ∧
    pdbSearch c1Items 1 [] = Except.ok [c1ItemY, c1ItemX, c1ItemZ] := by
  constructor
  · intro items category
    refine ⟨sortByKey keyNoKw (candidatesIn items category), rfl, sortByKey_perm _ _,
      sorted_specLeNoKw_of_key (sortByKey_sorted _ _), ?_⟩
    intro hn other hperm hsort
    exact eq_sortByKey_of_perm_of_sorted (keyNoKw_nodup (candidatesIn_ids_nodup hn category))
      hperm (sorted_key_of_specLeNoKw hsort)
  · decide

/-- Witness for claim C1: the general theorem applied to the concrete
scenario catalog, all hypotheses discharged by evaluation. -/
theorem c1_search_no_keywords_ranking_witness :
    ∃ res, pdbSearch c1Items 1 [] = Except.ok res ∧ [c1ItemY, c1ItemX, c1ItemZ] = res := by
  obtain ⟨res, h1, h2, h3, h4⟩ := c1_search_no_keywords_ranking.1 c1Items 1
  exact ⟨res, h1, h4 (by decide) [c1ItemY, c1ItemX, c1ItemZ] (by decide) (by decide)⟩

/-- Scenario items for the gateway counterexample; same prices and scores
as the spec scenario, with X listed more recently than Y. -/
def c1gItemX : Item :=
  { item_id := ⟨1, 1⟩, seller_id := 1, name := [120], category := 1, keywords := [],
    condition := .new, sale_price := 50, quantity := 1, feedback := ⟨3, 0⟩, created_at := 2 }

/-- Gateway counterexample item Y. -/
def c1gItemY : Item :=
  { item_id := ⟨1, 2⟩, seller_id := 1, name := [121], category := 1, keywords := [],
    condition := .new, sale_price := 10, quantity := 1, feedback := ⟨3, 0⟩, created_at := 1 }

/-- Gateway counterexample item Z. -/
def c1gItemZ : Item :=
  { item_id := ⟨1, 3⟩, seller_id := 1, name := [122], category := 1, keywords := [],
    condition := .new, sale_price := 5, quantity := 1, feedback := ⟨1, 0⟩, created_at := 0 }

/-- Gateway counterexample catalog for claim C1. -/
def c1gItems : List Item := [c1gItemX, c1gItemY, c1gItemZ]

/-- Counterexample to claim C1 as stated: the consolidated gateway's search
handler (`handlers/buyer.py`) sorts by thumbs_up descending then creation
time descending and ignores price, downvotes and item ids, so on the spec's
own scenario (X newer than Y) it returns X, Y, Z where the claim requires
Y, X, Z.  The backend `ProductDB.search` does return the claimed order. -/
theorem c1_gateway_order_counterexample :
    gwSearch c1gItems 1 [] = Except.ok [c1gItemX, c1gItemY, c1gItemZ] ∧
    pdbSearch c1gItems 1 [] = Except.ok [c1gItemY, c1gItemX, c1gItemZ] ∧
    ([c1gItemX, c1gItemY, c1gItemZ] : List Item) ≠ [c1gItemY, c1gItemX, c1gItemZ] := by
  exact ⟨by decide, by decide, by decide⟩

/-! ### Claim C2: keyword search -/

theorem lowerC_idem (c : Nat) : lowerC (lowerC c) = lowerC c := by
  unfold lowerC
  by_cases h : 65 ≤ c ∧ c ≤ 90
  · rw [if_pos h, if_neg (by omega)]
  · rw [if_neg h, if_neg h]

theorem lowerS_idem (s : Str) : lowerS (lowerS s) = lowerS s := by
  unfold lowerS
  rw [List.map_map]
  exact List.map_congr_left fun c _ => lowerC_idem c

theorem normQuery_mem_lowered {kws : List Str} {k : Str} (h : k ∈ normQuery kws) :
    lowerS k = k := by
  rcases List.mem_map.mp h with ⟨x, _, rfl⟩
  exact lowerS_idem x

theorem matchScore_eq_specMatchScore (q : List Str) (it : Item)
    (hq : ∀ k ∈ q, lowerS k = k) : matchScore q it = specMatchScore q it := by
  unfold matchScore specMatchScore
  congr 1
  apply List.filter_congr
  intro k hk
  have hkl := hq k hk
  simp only [decide_eq_decide, List.mem_map]
  constructor
  · rintro (⟨kw, hkw, rfl⟩ | ht)
    · exact Or.inl ⟨kw, hkw, by rw [lowerS_idem]⟩
    · exact Or.inr ⟨k, ht, hkl⟩
  · rintro (⟨kw, hkw, he⟩ | ⟨t, ht, he⟩)
    · exact Or.inl ⟨kw, hkw, by rw [← he, hkl]⟩
    · rw [hkl] at he
      exact Or.inr (he ▸ ht)

/-- Item-level sort key equivalent to the pair key used by the keyword
branch: `(-match_score, -feedback_score, price, category, number)`. -/
def keyKwItem (q : List Str) (it : Item) : Lex (Int × Lex (Int × Lex (ℚ × Lex (Int × Int)))) :=
  toLex (-(matchScore q it : Int), keyNoKw it)

theorem keyKwItem_le_iff (q : List Str) (a b : Item) :
    keyKwItem q a ≤ keyKwItem q b ↔ specLeKw q a b := by
  unfold keyKwItem specLeKw
  rw [Prod.Lex.le_iff]
  constructor
  · rintro (h | ⟨h1, h2⟩)
    · exact Or.inl (by omega)
    · exact Or.inr ⟨by omega, (keyNoKw_le_iff _ _).mp h2⟩
  · rintro (h | ⟨h1, h2⟩)
    · exact Or.inl (by omega)
    · exact Or.inr ⟨by omega, (keyNoKw_le_iff _ _).mpr h2⟩

theorem scoredPairs_fst {q : List Str} {l : List Item} {p : Nat × Item}
    (h : p ∈ scoredPairs q l) : p.1 = matchScore q p.2 ∧ p.2 ∈ l := by
  induction l with
  | nil => simp [scoredPairs] at h
  | cons a l ih =>
    simp only [scoredPairs, List.filterMap_cons] at h
    by_cases ha : 0 < matchScore q a
    · rw [if_pos ha] at h
      rcases List.mem_cons.mp h with rfl | h'
      · exact ⟨rfl, List.mem_cons_self a l⟩
      · have := ih h'
        exact ⟨this.1, List.mem_cons_of_mem _ this.2⟩
    · rw [if_neg ha] at h
      have := ih h
      exact ⟨this.1, List.mem_cons_of_mem _ this.2⟩

theorem scoredPairs_map_snd (q : List Str) (l : List Item) :
    (scoredPairs q l).map Prod.snd = l.filter fun it => decide (0 < matchScore q it) := by
  induction l with
  | nil => rfl
  | cons a l ih =>
    simp only [scoredPairs] at ih ⊢
    by_cases ha : 0 < matchScore q a <;>
      simp [List.filterMap_cons, ha, List.filter_cons, ih]

theorem sortByKey_kw_pairs_map_snd (q : List Str) (l : List Item) :
    (sortByKey keyKw (scoredPairs q l)).map Prod.snd =
      sortByKey (keyKwItem q) (l.filter fun it => decide (0 < matchScore q it)) := by
  rw [← scoredPairs_map_snd q l]
  unfold sortByKey
  letI d1 : DecidableRel (fun a b : Nat × Item => keyKw a ≤ keyKw b) :=
    fun a b => inferInstanceAs (Decidable (keyKw a ≤ keyKw b))
  letI d2 : DecidableRel (fun a b : Item => keyKwItem q a ≤ keyKwItem q b) :=
    fun a b => inferInstanceAs (Decidable (keyKwItem q a ≤ keyKwItem q b))
  apply List.map_insertionSort
  intro a ha b hb
  have hfa : keyKw a = keyKwItem q a.2 := by
    unfold keyKw keyKwItem
    rw [(scoredPairs_fst ha).1]
  have hfb : keyKw b = keyKwItem q b.2 := by
    unfold keyKw keyKwItem
    rw [(scoredPairs_fst hb).1]
  rw [hfa, hfb]

/-- Projection recovering the item id from the keyword sort key. -/
def keyKwId (k : Lex (Int × Lex (Int × Lex (ℚ × Lex (Int × Int))))) : ItemId :=
  keyNoKwId (ofLex k).2

theorem keyKwItem_nodup (q : List Str) {l : List Item} (h : (l.map Item.item_id).Nodup) :
    (l.map (keyKwItem q)).Nodup := by
  apply List.Nodup.of_map keyKwId
  rw [List.map_map]
  have he : keyKwId ∘ keyKwItem q = Item.item_id := funext fun it => rfl
  rw [he]
  exact h

theorem sorted_specLeKw_of_key {q : List Str} {l : List Item}
    (h : l.Sorted fun a b => keyKwItem q a ≤ keyKwItem q b) : l.Sorted (specLeKw q) :=
  h.imp fun hab => (keyKwItem_le_iff _ _ _).mp hab

theorem sorted_key_of_specLeKw {q : List Str} {l : List Item} (h : l.Sorted (specLeKw q)) :
    l.Sorted fun a b => keyKwItem q a ≤ keyKwItem q b :=
  h.imp fun hab => (keyKwItem_le_iff _ _ _).mpr hab

/-- Item for the claim C2 scenario/counterexample: name "Red Hammer",
stored keywords ["tool"]. -/
def c2Hammer : Item :=
  { item_id := ⟨1, 1⟩, seller_id := 1,
    name := [82, 101, 100, 32, 72, 97, 109, 109, 101, 114], category := 1,
    keywords := [[116, 111, 111, 108]], condition := .new, sale_price := 1,
    quantity := 1, feedback := ⟨0, 0⟩, created_at := 0 }

/-- Catalog for the claim C2 scenario. -/
def c2Items : List Item := [c2Hammer]

/-- Query keyword "hammer". -/
def c2QueryHammer : Str := [104, 97, 109, 109, 101, 114]

/-- Claim C2, amended to the backend catalog service `ProductDB.search`:
for a non-empty (validated) keyword query, match_score counts query
keywords equal (case-insensitively) to a stored keyword or to a lowercase
token of the item's name, zero-score items are excluded, and survivors are
sorted by match_score descending, then feedback score descending, then
price ascending, then item id ascending, uniquely so when item ids are
distinct.  (The consolidated gateway's own search handler matches only
stored keywords and orders differently; see the counterexample.) -/
theorem c2_search_keyword_ranking :
    (∀ (items : List Item) (category : Int) (kws : List Str),
      normQuery kws ≠ [] → (normQuery kws).length ≤ 5 →
      (∀ k ∈ normQuery kws, k.length ≤ 8) →
      ∃ res, pdbSearch items category kws = Except.ok res ∧
        (∀ it, matchScore (normQuery kws) it = specMatchScore (normQuery kws) it) ∧
        res.Perm ((candidatesIn items category).filter fun it =>
          decide (0 < specMatchScore (normQuery kws) it)) ∧
        res.Sorted (specLeKw (normQuery kws)) ∧
        ((items.map Item.item_id).Nodup →
          ∀ other : List Item,
            other.Perm ((candidatesIn items category).filter fun it =>
              decide (0 < specMatchScore (normQuery kws) it)) →
            other.Sorted (specLeKw (normQuery kws)) → other = res)) ∧
    pdbSearch c2Items 1 [c2QueryHammer] = Except.ok [c2Hammer] := by
  constructor
  · intro items category kws hne h5 h8
    have hlow : ∀ k ∈ normQuery kws, lowerS k = k := fun k hk => normQuery_mem_lowered hk
    have hms : ∀ it, matchScore (normQuery kws) it = specMatchScore (normQuery kws) it :=
      fun it => matchScore_eq_specMatchScore _ it hlow
    have hfil : ((candidatesIn items category).filter fun it =>
        decide (0 < matchScore (normQuery kws) it)) =
        ((candidatesIn items category).filter fun it =>
          decide (0 < specMatchScore (normQuery kws) it)) :=
      List.filter_congr fun it _ => by rw [hms it]
    have hsearch : pdbSearch items category kws =
        Except.ok (sortByKey (keyKwItem (normQuery kws))
          ((candidatesIn items category).filter fun it =>
            decide (0 < matchScore (normQuery kws) it))) := by
      unfold pdbSearch
      rw [if_neg (by omega), if_neg (by
        simp only [List.any_eq_true, not_exists, not_and, decide_eq_true_eq]
        intro k hk
        have := h8 k hk
        omega), if_neg (by simpa [List.isEmpty_iff] using hne)]
      rw [sortByKey_kw_pairs_map_snd]
    rw [hfil] at hsearch
    refine ⟨_, hsearch, hms, sortByKey_perm _ _,
      sorted_specLeKw_of_key (sortByKey_sorted _ _), ?_⟩
    intro hn other hperm hsort
    have hnodup : (((candidatesIn items category).filter fun it =>
        decide (0 < specMatchScore (normQuery kws) it)).map (keyKwItem (normQuery kws))).Nodup := by
      apply keyKwItem_nodup
      exact (candidatesIn_ids_nodup hn category).sublist
        ((List.filter_sublist (candidatesIn items category)).map Item.item_id)
    exact eq_sortByKey_of_perm_of_sorted hnodup hperm (sorted_key_of_specLeKw hsort)
  · decide

/-- Witness for claim C2: the general theorem applied to the concrete
one-item catalog with query "hammer", all hypotheses discharged by
evaluation. -/
theorem c2_search_keyword_ranking_witness :
    ∃ res, pdbSearch c2Items 1 [c2QueryHammer] = Except.ok res ∧ [c2Hammer] = res := by
  obtain ⟨res, h1, h2, h3, h4, h5⟩ :=
    c2_search_keyword_ranking.1 c2Items 1 [c2QueryHammer] (by decide) (by decide) (by decide)
  exact ⟨res, h1, h5 (by decide) [c2Hammer] (by decide) (by decide)⟩

/-- Counterexample to claim C2 as stated: for the query "hammer" against an
item named "Red Hammer" with stored keywords ["tool"], the claim requires
match_score 1 (a name token matches) and inclusion in the result, but the
consolidated gateway's search handler consults only stored keywords, scores
the item 0 and excludes it entirely.  The backend `ProductDB.search`
includes it. -/
theorem c2_gateway_name_token_counterexample :
    gwSearch c2Items 1 [c2QueryHammer] = Except.ok [] ∧
    specMatchScore (normQuery [c2QueryHammer]) c2Hammer = 1 ∧
    pdbSearch c2Items 1 [c2QueryHammer] = Except.ok [c2Hammer] := by
  exact ⟨by decide, by decide, by decide⟩

/-! ### Backend customer store (`src/backend/customer_db_server.py`) -/

/-- Account role. -/
inductive Role
  | buyer
  | seller
deriving DecidableEq

/-- Backend session record, `customer_db_server._Session`. -/
structure CSession where
  role : Role
  user_id : Int
  created_at : ℚ
  last_activity : ℚ
deriving DecidableEq

/-- Seller account, `models.Seller` (password hashing in this backend is
`_hash_pw(pw) = str(pw)`, the identity). -/
structure CSeller where
  seller_id : Int
  name : Str
  feedback : Feedback
  items_sold : Int
  password_hash : Str
  created_at : ℚ
deriving DecidableEq

/-- Buyer account, `models.Buyer`. -/
structure CBuyer where
  buyer_id : Int
  name : Str
  items_purchased : Int
  password_hash : Str
  created_at : ℚ
deriving DecidableEq

/-- The backend customer store state, `CustomerDB.__init__`.  Session
tokens (uuid strings) are modelled as opaque naturals supplied by the
caller of `login`; cart item keys are the opaque strings the store
receives. -/
structure CustomerDB where
  timeout_seconds : Int
  next_seller_id : Int
  next_buyer_id : Int
  sellers : List (Int × CSeller)
  buyers : List (Int × CBuyer)
  seller_name_index : List (Str × List Int)
  buyer_name_index : List (Str × List Int)
  sessions : List (Nat × CSession)
  session_carts : List (Nat × List (Str × Int))
  saved_carts : List (Int × List (Str × Int))
  buyer_purchases : List (Int × List Str)
deriving DecidableEq

/-- Fresh store with the timeout clamp `max(1, int(timeout_seconds))`. -/
def CustomerDB.init (timeout : Int) : CustomerDB :=
  { timeout_seconds := if timeout < 1 then 1 else timeout,
    next_seller_id := 1, next_buyer_id := 1,
    sellers := [], buyers := [], seller_name_index := [], buyer_name_index := [],
    sessions := [], session_carts := [], saved_carts := [], buyer_purchases := [] }

/-- Errors raised by the customer store (each a distinct `ValueError`
message in the source). -/
inductive CErr
  | invalidRole
  | badName
  | invalidCredentials
  | ambiguousUsername
  | invalidSession
  | roleMismatch
  | qtyNotPositive
  | itemNotInCart
  | removeTooMany
deriving DecidableEq

/-- `CustomerDB._touch_or_expire`: lazy session expiry.  Absent tokens give
`none`; a session idle for at least the timeout is removed together with
its transient cart and gives `none`; otherwise `last_activity` is refreshed
to `now` and the session returned. -/
def touchOrExpire (db : CustomerDB) (token : Nat) (now : ℚ) :
    Option CSession × CustomerDB :=
  match alookup db.sessions token with
  | none => (none, db)
  | some s =>
    if (db.timeout_seconds : ℚ) ≤ now - s.last_activity then
      (none, { db with sessions := aerase db.sessions token,
                       session_carts := aerase db.session_carts token })
    else
      let s' := { s with last_activity := now }
      (some s', { db with sessions := aset db.sessions token s' })

/-- A login username: either numeric (an `int` or digit string, treated as
an id) or a plain name. -/
inductive UserName
  | uid (n : Int)
  | uname (s : Str)
deriving DecidableEq

/-- Credential check used while filtering name-index candidates
(`self.sellers[sid].password_hash == pw`; the index only ever holds ids of
existing accounts, so a missing entry is unreachable and modelled as a
non-match). -/
def sellerPwOk (tbl : List (Int × CSeller)) (sid : Int) (pw : Str) : Bool :=
  match alookup tbl sid with
  | some s => decide (s.password_hash = pw)
  | none => false

/-- Buyer-side credential check. -/
def buyerPwOk (tbl : List (Int × CBuyer)) (bid : Int) (pw : Str) : Bool :=
  match alookup tbl bid with
  | some b => decide (b.password_hash = pw)
  | none => false

/-- `CustomerDB._resolve_user_id`: numeric usernames are direct id lookups
(`.ok none` meaning no match); names go through the name index and must
match exactly one credential, else ambiguous (>1) or no match (0). -/
def resolveUserId (db : CustomerDB) (role : Role) (username : UserName) (pw : Str) :
    Except CErr (Option Int) :=
  match username with
  | .uid n =>
    match role with
    | .seller =>
      match alookup db.sellers n with
      | some s => if s.password_hash = pw then .ok (some n) else .ok none
      | none => .ok none
    | .buyer =>
      match alookup db.buyers n with
      | some b => if b.password_hash = pw then .ok (some n) else .ok none
      | none => .ok none
  | .uname nm =>
    match role with
    | .seller =>
      let cands := (alookup db.seller_name_index nm).getD []
      let hits := cands.filter fun sid => sellerPwOk db.sellers sid pw
      match hits with
      | [m] => .ok (some m)
      | [] => .ok none
      | _ => .error .ambiguousUsername
    | .buyer =>
      let cands := (alookup db.buyer_name_index nm).getD []
      let hits := cands.filter fun bid => buyerPwOk db.buyers bid pw
      match hits with
      | [m] => .ok (some m)
      | [] => .ok none
      | _ => .error .ambiguousUsername

/-- `CustomerDB.login`: resolve the user, then create a session under the
fresh token; buyers get a copy of their saved cart (or an empty cart) as
the new session's active cart, sellers an empty cart. -/
def cdbLogin (db : CustomerDB) (role : Role) (username : UserName) (pw : Str)
    (token : Nat) (now : ℚ) : Except CErr (Int × Nat) × CustomerDB :=
  match resolveUserId db role username pw with
  | .error e => (.error e, db)
  | .ok none => (.error .invalidCredentials, db)
  | .ok (some uid) =>
    let sess : CSession := { role := role, user_id := uid, created_at := now, last_activity := now }
    let cart : List (Str × Int) :=
      match role with
      | .seller => []
      | .buyer => (alookup db.saved_carts uid).getD []
    (.ok (uid, token),
      { db with sessions := aset db.sessions token sess,
                session_carts := aset db.session_carts token cart })

/-- `CustomerDB.logout`: idempotent removal of the session and its cart. -/
def cdbLogout (db : CustomerDB) (token : Nat) : CustomerDB :=
  { db with sessions := aerase db.sessions token,
            session_carts := aerase db.session_carts token }

/-- `CustomerDB.create_account` (name validation then id assignment). -/
def cdbCreateAccount (db : CustomerDB) (role : Role) (name : Str) (pw : Str) :
    Except CErr Int × CustomerDB :=
  if name.length = 0 ∨ 32 < name.length then (.error .badName, db)
  else
    match role with
    | .seller =>
      let sid := db.next_seller_id
      let s : CSeller := { seller_id := sid, name := name, feedback := ⟨0, 0⟩,
                           items_sold := 0, password_hash := pw, created_at := 0 }
      (.ok sid,
        { db with next_seller_id := sid + 1,
                  sellers := aset db.sellers sid s,
                  seller_name_index :=
                    aset db.seller_name_index name
                      ((alookup db.seller_name_index name).getD [] ++ [sid]) })
    | .buyer =>
      let bid := db.next_buyer_id
      let b : CBuyer := { buyer_id := bid, name := name, items_purchased := 0,
                          password_hash := pw, created_at := 0 }
      (.ok bid,
        { db with next_buyer_id := bid + 1,
                  buyers := aset db.buyers bid b,
                  buyer_name_index :=
                    aset db.buyer_name_index name
                      ((alookup db.buyer_name_index name).getD [] ++ [bid]),
                  buyer_purchases :=
                    aset db.buyer_purchases bid
                      ((alookup db.buyer_purchases bid).getD []) })

/-- Common prologue of the cart endpoints: touch the session and require a
buyer role (`invalid buyer session` otherwise). -/
def requireBuyerSession (db : CustomerDB) (token : Nat) (now : ℚ) :
    Except CErr CSession × CustomerDB :=
  match touchOrExpire db token now with
  | (none, db1) => (.error .invalidSession, db1)
  | (some s, db1) =>
    if s.role = .buyer then (.ok s, db1) else (.error .invalidSession, db1)

/-- `CustomerDB.cart_add`: positive quantity, valid buyer session, then
increment the entry (creating it if absent). -/
def cdbCartAdd (db : CustomerDB) (token : Nat) (key : Str) (qty : Int) (now : ℚ) :
    Except CErr (List (Str × Int)) × CustomerDB :=
  if qty ≤ 0 then (.error .qtyNotPositive, db)
  else
    match requireBuyerSession db token now with
    | (.error e, db1) => (.error e, db1)
    | (.ok _, db1) =>
      let cart := (alookup db1.session_carts token).getD []
      let cart' := aset cart key ((alookup cart key).getD 0 + qty)
      (.ok cart', { db1 with session_carts := aset db1.session_carts token cart' })

/-- `CustomerDB.cart_remove`: positive quantity, valid buyer session; the
entry must exist and hold at least the removed quantity; removing the last
unit deletes the entry.  (The source's `setdefault` inserts an empty cart
before the checks; its effect is preserved on the error paths.) -/
def cdbCartRemove (db : CustomerDB) (token : Nat) (key : Str) (qty : Int) (now : ℚ) :
    Except CErr (List (Str × Int)) × CustomerDB :=
  if qty ≤ 0 then (.error .qtyNotPositive, db)
  else
    match requireBuyerSession db token now with
    | (.error e, db1) => (.error e, db1)
    | (.ok _, db1) =>
      let cart := (alookup db1.session_carts token).getD []
      let db2 := { db1 with session_carts := aset db1.session_carts token cart }
      let cur := (alookup cart key).getD 0
      if cur ≤ 0 then (.error .itemNotInCart, db2)
      else if cur < qty then (.error .removeTooMany, db2)
      else
        let cart' := if cur - qty = 0 then aerase cart key else aset cart key (cur - qty)
        (.ok cart', { db2 with session_carts := aset db2.session_carts token cart' })

/-- `CustomerDB.cart_clear`. -/
def cdbCartClear (db : CustomerDB) (token : Nat) (now : ℚ) :
    Except CErr Unit × CustomerDB :=
  match requireBuyerSession db token now with
  | (.error e, db1) => (.error e, db1)
  | (.ok _, db1) =>
    (.ok (), { db1 with session_carts := aset db1.session_carts token [] })

/-- `CustomerDB.cart_save`: snapshot the active cart into the buyer's
saved-cart slot (no filtering in this backend). -/
def cdbCartSave (db : CustomerDB) (token : Nat) (now : ℚ) :
    Except CErr (List (Str × Int)) × CustomerDB :=
  match requireBuyerSession db token now with
  | (.error e, db1) => (.error e, db1)
  | (.ok s, db1) =>
    let cart := (alookup db1.session_carts token).getD []
    (.ok cart, { db1 with saved_carts := aset db1.saved_carts s.user_id cart })

/-- `CustomerDB.cart_get`. -/
def cdbCartGet (db : CustomerDB) (token : Nat) (now : ℚ) :
    Except CErr (List (Str × Int)) × CustomerDB :=
  match requireBuyerSession db token now with
  | (.error e, db1) => (.error e, db1)
  | (.ok _, db1) => (.ok ((alookup db1.session_carts token).getD []), db1)

/-! ### Claim C3: lazy session expiry -/

/-- Claim C3: accessing a session through `_touch_or_expire` at time `now`
returns the session with `last_activity` refreshed to `now` when the idle
time is strictly below the timeout; otherwise it removes the session and
its transient cart and returns none; an absent token yields none, and after
expiry the token is gone from the table just as if it had never existed. -/
theorem c3_touch_or_expire (db : CustomerDB) (token : Nat) (now : ℚ) :
    (alookup db.sessions token = none → touchOrExpire db token now = (none, db)) ∧
    (∀ s, alookup db.sessions token = some s →
      (now - s.last_activity < (db.timeout_seconds : ℚ) →
        touchOrExpire db token now =
          (some { s with last_activity := now },
           { db with sessions := aset db.sessions token { s with last_activity := now } })) ∧
      ((db.timeout_seconds : ℚ) ≤ now - s.last_activity →
        touchOrExpire db token now =
          (none, { db with sessions := aerase db.sessions token,
                           session_carts := aerase db.session_carts token }) ∧
        ((db.sessions.map Prod.fst).Nodup →
          alookup (touchOrExpire db token now).2.sessions token = none) ∧
        ((db.session_carts.map Prod.fst).Nodup →
          alookup (touchOrExpire db token now).2.session_carts token = none))) := by
  refine ⟨fun h => by simp [touchOrExpire, h], fun s hs => ⟨fun hlt => ?_, fun hge => ?_⟩⟩
  · simp [touchOrExpire, hs, not_le.mpr hlt]
  · refine ⟨by simp [touchOrExpire, hs, hge], fun hn => ?_, fun hn => ?_⟩
    · simp only [touchOrExpire, hs, if_pos hge]
      exact alookup_aerase_self_of_nodup token hn
    · simp only [touchOrExpire, hs, if_pos hge]
      exact alookup_aerase_self_of_nodup token hn

/-- State for the claim C3 witness: one buyer session under token 7,
timeout 300 seconds, last activity at time 0. -/
def c3Db : CustomerDB :=
  { CustomerDB.init 300 with
    sessions := [(7, { role := .buyer, user_id := 1, created_at := 0, last_activity := 0 })],
    session_carts := [(7, [])] }

/-- Witness for claim C3: at time 100 the session under token 7 is
refreshed and returned; at time 400 it has expired, is removed and the
token thereafter looks absent; token 9 never existed and yields none. -/
theorem c3_touch_or_expire_witness :
    touchOrExpire c3Db 9 100 = (none, c3Db) ∧
    (touchOrExpire c3Db 7 100).1 =
      some { role := .buyer, user_id := 1, created_at := 0, last_activity := 100 } ∧
    (touchOrExpire c3Db 7 400).1 = none ∧
    alookup (touchOrExpire c3Db 7 400).2.sessions 7 = none := by
  have hsess : alookup c3Db.sessions 7 =
      some { role := .buyer, user_id := 1, created_at := 0, last_activity := 0 } := by decide
  refine ⟨(c3_touch_or_expire c3Db 9 100).1 (by decide), ?_, ?_, ?_⟩
  · rw [((c3_touch_or_expire c3Db 7 100).2
      { role := .buyer, user_id := 1, created_at := 0, last_activity := 0 } hsess).1
      (by norm_num [c3Db, CustomerDB.init])]
  · rw [(((c3_touch_or_expire c3Db 7 400).2
      { role := .buyer, user_id := 1, created_at := 0, last_activity := 0 } hsess).2
      (by norm_num [c3Db, CustomerDB.init])).1]
  · exact (((c3_touch_or_expire c3Db 7 400).2
      { role := .buyer, user_id := 1, created_at := 0, last_activity := 0 } hsess).2
      (by norm_num [c3Db, CustomerDB.init])).2.1 (by decide)

/-! ### Claims C6 and C9: cart isolation and the saved-cart roundtrip -/

theorem touchOrExpire_carts_other (db : CustomerDB) (t t' : Nat) (now : ℚ) (h : t' ≠ t) :
    alookup (touchOrExpire db t now).2.session_carts t' = alookup db.session_carts t' := by
  unfold touchOrExpire
  cases hs : alookup db.sessions t with
  | none => rfl
  | some s =>
    by_cases hexp : (db.timeout_seconds : ℚ) ≤ now - s.last_activity
    · simp only [if_pos hexp]
      exact alookup_aerase_ne _ _ _ h
    · simp only [if_neg hexp]

theorem requireBuyerSession_carts_other (db : CustomerDB) (t t' : Nat) (now : ℚ) (h : t' ≠ t) :
    alookup (requireBuyerSession db t now).2.session_carts t' = alookup db.session_carts t' := by
  unfold requireBuyerSession
  have hbase := touchOrExpire_carts_other db t t' now h
  rcases htouch : touchOrExpire db t now with ⟨os, db1⟩
  rw [htouch] at hbase
  cases os with
  | none => exact hbase
  | some s =>
    by_cases hrole : s.role = .buyer <;> simp [hrole, hbase]

/-- Claim C6, amended to the backend CustomerDB: active carts live under the
session token, so cart mutations through one token never change the cart
seen through a different token, and a successful login installs the
buyer's saved cart (by value; or an empty cart) under the new token only.
(The consolidated server keys active carts by buyer id instead; see the
counterexample.) -/
theorem c6_cart_isolation_backend :
    (∀ (db : CustomerDB) (t t' : Nat) (key : Str) (q : Int) (now : ℚ), t' ≠ t →
      alookup (cdbCartAdd db t key q now).2.session_carts t' = alookup db.session_carts t' ∧
      alookup (cdbCartRemove db t key q now).2.session_carts t' = alookup db.session_carts t' ∧
      alookup (cdbCartClear db t now).2.session_carts t' = alookup db.session_carts t') ∧
    (∀ (db : CustomerDB) (role : Role) (un : UserName) (pw : Str) (tok : Nat) (now : ℚ)
      (uid : Int),
      (cdbLogin db role un pw tok now).1 = .ok (uid, tok) →
      alookup (cdbLogin db role un pw tok now).2.session_carts tok =
        some (match role with
              | .seller => []
              | .buyer => (alookup db.saved_carts uid).getD []) ∧
      (∀ t', t' ≠ tok →
        alookup (cdbLogin db role un pw tok now).2.session_carts t' =
          alookup db.session_carts t')) := by
  constructor
  · intro db t t' key q now hne
    have hreq := requireBuyerSession_carts_other db t t' now hne
    refine ⟨?_, ?_, ?_⟩
    · unfold cdbCartAdd
      by_cases hq : q ≤ 0
      · simp [hq]
      · simp only [if_neg hq]
        rcases hr : requireBuyerSession db t now with ⟨res, db1⟩
        rw [hr] at hreq
        cases res with
        | error e => exact hreq
        | ok s => simpa [alookup_aset_ne _ _ _ _ hne] using hreq
    · unfold cdbCartRemove
      by_cases hq : q ≤ 0
      · simp [hq]
      · simp only [if_neg hq]
        rcases hr : requireBuyerSession db t now with ⟨res, db1⟩
        rw [hr] at hreq
        cases res with
        | error e => exact hreq
        | ok s =>
          by_cases h1 : (alookup ((alookup db1.session_carts t).getD []) key).getD 0 ≤ 0
          · simpa [h1, alookup_aset_ne _ _ _ _ hne] using hreq
          · by_cases h2 : (alookup ((alookup db1.session_carts t).getD []) key).getD 0 < q
            · simpa [h1, h2, alookup_aset_ne _ _ _ _ hne] using hreq
            · simpa [h1, h2, alookup_aset_ne _ _ _ _ hne] using hreq
    · unfold cdbCartClear
      rcases hr : requireBuyerSession db t now with ⟨res, db1⟩
      rw [hr] at hreq
      cases res with
      | error e => exact hreq
      | ok s => simpa [alookup_aset_ne _ _ _ _ hne] using hreq
  · intro db role un pw tok now uid hok
    unfold cdbLogin at hok ⊢
    cases hres : resolveUserId db role un pw with
    | error e => rw [hres] at hok; exact absurd hok (by simp)
    | ok o =>
      cases o with
      | none => rw [hres] at hok; exact absurd hok (by simp)
      | some u =>
        rw [hres] at hok
        simp only [Except.ok.injEq, Prod.mk.injEq] at hok
        obtain ⟨rfl, -⟩ := hok
        refine ⟨?_, fun t' hne => ?_⟩
        · simp only [alookup_aset_self]
        · simp only [alookup_aset_ne _ _ _ _ hne]

/-- State used by the claim C6 witness: two buyer sessions for the same
buyer 1 under tokens 5 and 6; token 5 holds one item in its cart. -/
def c6Db : CustomerDB :=
  { CustomerDB.init 300 with
    buyers := [(1, { buyer_id := 1, name := [98], items_purchased := 0,
                     password_hash := [112], created_at := 0 })],
    buyer_name_index := [([98], [1])],
    sessions := [(5, { role := .buyer, user_id := 1, created_at := 0, last_activity := 0 }),
                 (6, { role := .buyer, user_id := 1, created_at := 0, last_activity := 0 })],
    session_carts := [(5, [([107], 1)]), (6, [])],
    saved_carts := [(1, [([107], 2)])] }

/-- Witness for claim C6: adding to the cart of session 5 leaves session
6's cart untouched, and a login under fresh token 9 installs the saved
cart of buyer 1 under token 9 only. -/
theorem c6_cart_isolation_backend_witness :
    alookup (cdbCartAdd c6Db 5 [107] 1 10).2.session_carts 6 =
      alookup c6Db.session_carts 6 ∧
    alookup (cdbLogin c6Db .buyer (.uid 1) [112] 9 10).2.session_carts 9 =
      some [([107], 2)] ∧
    alookup (cdbLogin c6Db .buyer (.uid 1) [112] 9 10).2.session_carts 5 =
      alookup c6Db.session_carts 5 := by
  refine ⟨(c6_cart_isolation_backend.1 c6Db 5 6 [107] 1 10 (by decide)).1, ?_, ?_⟩
  · have h := (c6_cart_isolation_backend.2 c6Db .buyer (.uid 1) [112] 9 10 1 (by decide)).1
    rw [h]
    decide
  · exact (c6_cart_isolation_backend.2 c6Db .buyer (.uid 1) [112] 9 10 1 (by decide)).2
      5 (by decide)

theorem cdbCartSave_ok (db : CustomerDB) (t : Nat) (now : ℚ) (s : CSession)
    (hs : alookup db.sessions t = some s) (hrole : s.role = .buyer)
    (hfresh : now - s.last_activity < (db.timeout_seconds : ℚ)) :
    cdbCartSave db t now =
      (.ok ((alookup db.session_carts t).getD []),
       { db with sessions := aset db.sessions t { s with last_activity := now },
                 saved_carts := aset db.saved_carts s.user_id
                   ((alookup db.session_carts t).getD []) }) := by
  unfold cdbCartSave requireBuyerSession touchOrExpire
  rw [hs]
  simp [not_le.mpr hfresh, hrole]

theorem resolveUserId_congr {db db' : CustomerDB} (h1 : db'.sellers = db.sellers)
    (h2 : db'.buyers = db.buyers) (h3 : db'.seller_name_index = db.seller_name_index)
    (h4 : db'.buyer_name_index = db.buyer_name_index) (role : Role) (un : UserName)
    (pw : Str) : resolveUserId db' role un pw = resolveUserId db role un pw := by
  unfold resolveUserId
  rw [h1, h2, h3, h4]

theorem cdbLogin_buyer_ok (db : CustomerDB) (un : UserName) (pw : Str) (tok : Nat)
    (now : ℚ) (bid : Int) (hres : resolveUserId db .buyer un pw = .ok (some bid)) :
    cdbLogin db .buyer un pw tok now =
      (.ok (bid, tok),
       { db with
          sessions := aset db.sessions tok
            { role := .buyer, user_id := bid, created_at := now, last_activity := now },
          session_carts := aset db.session_carts tok
            ((alookup db.saved_carts bid).getD []) }) := by
  unfold cdbLogin
  rw [hres]

/-- Claim C9: a buyer whose active cart is exactly {A: 2} saves it, logs
out, and logs back in (under any fresh token); the new session's active
cart is exactly {A: 2} again. -/
theorem c9_saved_cart_roundtrip (db : CustomerDB) (t1 t2 : Nat) (s : CSession)
    (bid : Int) (akey : Str) (un : UserName) (pw : Str) (now1 now3 : ℚ)
    (hs : alookup db.sessions t1 = some s) (hrole : s.role = .buyer)
    (hbid : s.user_id = bid)
    (hfresh : now1 - s.last_activity < (db.timeout_seconds : ℚ))
    (hcart : alookup db.session_carts t1 = some [(akey, 2)])
    (hres : resolveUserId db .buyer un pw = .ok (some bid)) :
    (cdbLogin (cdbLogout (cdbCartSave db t1 now1).2 t1) .buyer un pw t2 now3).1 =
      .ok (bid, t2) ∧
    alookup (cdbLogin (cdbLogout (cdbCartSave db t1 now1).2 t1) .buyer un pw t2
      now3).2.session_carts t2 = some [(akey, 2)] := by
  have hsave := cdbCartSave_ok db t1 now1 s hs hrole hfresh
  rw [hcart] at hsave
  set db1 := (cdbCartSave db t1 now1).2 with hdb1
  have hdb1eq : db1 = { db with
      sessions := aset db.sessions t1 { s with last_activity := now1 },
      saved_carts := aset db.saved_carts s.user_id [(akey, 2)] } := by
    rw [hdb1, hsave]
    simp
  set db2 := cdbLogout db1 t1 with hdb2
  have hres2 : resolveUserId db2 .buyer un pw = .ok (some bid) := by
    rw [@resolveUserId_congr db db2 ?_ ?_ ?_ ?_ Role.buyer un pw] <;>
      simp [hdb2, cdbLogout, hdb1eq, hres]
  have hlog := cdbLogin_buyer_ok db2 un pw t2 now3 bid hres2
  have hsaved : alookup db2.saved_carts bid = some [(akey, 2)] := by
    have : db2.saved_carts = aset db.saved_carts s.user_id [(akey, 2)] := by
      rw [hdb2, cdbLogout, hdb1eq]
    rw [this, hbid]
    exact alookup_aset_self _ _ _
  constructor
  · rw [hlog]
  · rw [hlog]
    simp only [alookup_aset_self, hsaved, Option.getD_some]

/-- State for the claim C9 witness: buyer 1 logged in under token 3 with
active cart {A: 2} (A is the key [65]). -/
def c9Db : CustomerDB :=
  { CustomerDB.init 300 with
    buyers := [(1, { buyer_id := 1, name := [98], items_purchased := 0,
                     password_hash := [112], created_at := 0 })],
    buyer_name_index := [([98], [1])],
    sessions := [(3, { role := .buyer, user_id := 1, created_at := 0, last_activity := 0 })],
    session_carts := [(3, [([65], 2)])] }

/-- Witness for claim C9: the roundtrip theorem applied to the concrete
store `c9Db` (save at time 10, re-login under token 4 at time 20). -/
theorem c9_saved_cart_roundtrip_witness :
    (cdbLogin (cdbLogout (cdbCartSave c9Db 3 10).2 3) .buyer (.uid 1) [112] 4 20).1 =
      .ok (1, 4) ∧
    alookup (cdbLogin (cdbLogout (cdbCartSave c9Db 3 10).2 3) .buyer (.uid 1) [112] 4
      20).2.session_carts 4 = some [([65], 2)] :=
  c9_saved_cart_roundtrip c9Db 3 4
    { role := .buyer, user_id := 1, created_at := 0, last_activity := 0 }
    1 [65] (.uid 1) [112] 10 20 (by decide) (by decide) (by decide)
    (by norm_num [c9Db, CustomerDB.init]) (by decide) (by decide)

/-! ### Claim C8: login resolution in the backend customer store -/

/-- Role-indexed credential filter used by the name path of
`_resolve_user_id`. -/
def nameHits (db : CustomerDB) (role : Role) (nm : Str) (pw : Str) : List Int :=
  match role with
  | .seller =>
    ((alookup db.seller_name_index nm).getD []).filter fun sid => sellerPwOk db.sellers sid pw
  | .buyer =>
    ((alookup db.buyer_name_index nm).getD []).filter fun bid => buyerPwOk db.buyers bid pw

/-- Claim C8, amended to the backend `CustomerDB.login`: a numeric username
is a direct id lookup, succeeding exactly when that id exists with a
matching credential; a name is resolved through the name index and
succeeds exactly when one candidate's credential matches, failing with the
ambiguous-username error when more than one matches and with
invalid-credentials when none does.  (The consolidated gateway handlers
treat id and name as separate fields and report ambiguity whenever the
name is shared, before checking any credential; see the counterexample.) -/
theorem c8_login_resolution_backend :
    (∀ (db : CustomerDB) (role : Role) (n : Int) (pw : Str) (tok : Nat) (now : ℚ),
      ((cdbLogin db role (.uid n) pw tok now).1 = .ok (n, tok) ↔
        (match role with
         | .seller => sellerPwOk db.sellers n pw
         | .buyer => buyerPwOk db.buyers n pw) = true)) ∧
    (∀ (db : CustomerDB) (role : Role) (nm : Str) (pw : Str) (tok : Nat) (now : ℚ),
      (∀ m, nameHits db role nm pw = [m] →
        (cdbLogin db role (.uname nm) pw tok now).1 = .ok (m, tok)) ∧
      (1 < (nameHits db role nm pw).length →
        (cdbLogin db role (.uname nm) pw tok now).1 = .error .ambiguousUsername) ∧
      (nameHits db role nm pw = [] →
        (cdbLogin db role (.uname nm) pw tok now).1 = .error .invalidCredentials)) := by
  constructor
  · intro db role n pw tok now
    cases role
    · unfold cdbLogin resolveUserId buyerPwOk
      cases hb : alookup db.buyers n with
      | none => simp [hb]
      | some b => by_cases hpw : b.password_hash = pw <;> simp [hb, hpw]
    · unfold cdbLogin resolveUserId sellerPwOk
      cases hb : alookup db.sellers n with
      | none => simp [hb]
      | some s => by_cases hpw : s.password_hash = pw <;> simp [hb, hpw]
  · intro db role nm pw tok now
    refine ⟨fun m hm => ?_, fun hlen => ?_, fun hnil => ?_⟩
    · cases role
      case buyer =>
        unfold cdbLogin resolveUserId
        unfold nameHits at hm
        simp only at hm
        simp [hm]
      case seller =>
        unfold cdbLogin resolveUserId
        unfold nameHits at hm
        simp only at hm
        simp [hm]
    · cases role
      case buyer =>
        unfold cdbLogin resolveUserId
        unfold nameHits at hlen
        simp only at hlen
        rcases hhits : ((alookup db.buyer_name_index nm).getD []).filter
            (fun bid => buyerPwOk db.buyers bid pw) with - | ⟨a, - | ⟨b, t⟩⟩
        · rw [hhits] at hlen
          simp at hlen
        · rw [hhits] at hlen
          simp at hlen
        · simp [hhits]
      case seller =>
        unfold cdbLogin resolveUserId
        unfold nameHits at hlen
        simp only at hlen
        rcases hhits : ((alookup db.seller_name_index nm).getD []).filter
            (fun sid => sellerPwOk db.sellers sid pw) with - | ⟨a, - | ⟨b, t⟩⟩
        · rw [hhits] at hlen
          simp at hlen
        · rw [hhits] at hlen
          simp at hlen
        · simp [hhits]
    · cases role
      case buyer =>
        unfold cdbLogin resolveUserId
        unfold nameHits at hnil
        simp only at hnil
        simp [hnil]
      case seller =>
        unfold cdbLogin resolveUserId
        unfold nameHits at hnil
        simp only at hnil
        simp [hnil]

/-- Accounts for the claim C8 witness: buyers 1 and 2 share the name "b"
with different passwords; buyer 3 ("c") is unique; buyers 4 and 5 share
the name "d" and the same password. -/
def c8Db : CustomerDB :=
  { CustomerDB.init 300 with
    buyers :=
      [(1, { buyer_id := 1, name := [98], items_purchased := 0,
             password_hash := [112, 49], created_at := 0 }),
       (2, { buyer_id := 2, name := [98], items_purchased := 0,
             password_hash := [112, 50], created_at := 0 }),
       (3, { buyer_id := 3, name := [99], items_purchased := 0,
             password_hash := [112, 49], created_at := 0 }),
       (4, { buyer_id := 4, name := [100], items_purchased := 0,
             password_hash := [112, 49], created_at := 0 }),
       (5, { buyer_id := 5, name := [100], items_purchased := 0,
             password_hash := [112, 49], created_at := 0 })],
    buyer_name_index := [([98], [1, 2]), ([99], [3]), ([100], [4, 5])] }

/-- Witness for claim C8: id login succeeds with the right password; a
shared name logs in the unique credential match; two credential matches
are ambiguous; no credential match is invalid-credentials. -/
theorem c8_login_resolution_backend_witness :
    (cdbLogin c8Db .buyer (.uid 1) [112, 49] 11 0).1 = .ok (1, 11) ∧
    (cdbLogin c8Db .buyer (.uname [98]) [112, 49] 12 0).1 = .ok (1, 12) ∧
    (cdbLogin c8Db .buyer (.uname [100]) [112, 49] 13 0).1 = .error .ambiguousUsername ∧
    (cdbLogin c8Db .buyer (.uname [99]) [112, 50] 14 0).1 = .error .invalidCredentials := by
  refine ⟨?_, ?_, ?_, ?_⟩
  · exact (c8_login_resolution_backend.1 c8Db .buyer 1 [112, 49] 11 0).mpr (by decide)
  · exact (c8_login_resolution_backend.2 c8Db .buyer [98] [112, 49] 12 0).1 1 (by decide)
  · exact (c8_login_resolution_backend.2 c8Db .buyer [100] [112, 49] 13 0).2.1 (by decide)
  · exact (c8_login_resolution_backend.2 c8Db .buyer [99] [112, 50] 14 0).2.2 (by decide)

/-! ### Cart positivity invariant machinery -/

theorem alookup_mem {κ α : Type} [DecidableEq κ] {m : List (κ × α)} {k : κ} {v : α}
    (h : alookup m k = some v) : (k, v) ∈ m := by
  induction m with
  | nil => simp [alookup] at h
  | cons e0 m ih =>
    obtain ⟨k0, v0⟩ := e0
    by_cases h0 : k = k0
    · subst h0
      simp [alookup] at h
      subst h
      exact List.mem_cons_self _ _
    · simp only [alookup, if_neg h0] at h
      exact List.mem_cons_of_mem _ (ih h)

/-- All entries of every stored cart hold quantity at least 1. -/
def cartsPosM {κ ι : Type} (m : List (κ × List (ι × Int))) : Prop :=
  ∀ c ∈ m, ∀ e ∈ c.2, 1 ≤ e.2

theorem cartsPosM_aset {κ ι : Type} [DecidableEq κ] {m : List (κ × List (ι × Int))}
    (k : κ) {cart : List (ι × Int)} (hm : cartsPosM m) (hc : ∀ e ∈ cart, 1 ≤ e.2) :
    cartsPosM (aset m k cart) := by
  intro c hcmem e he
  rcases mem_aset hcmem with rfl | h'
  · exact hc e he
  · exact hm c h' e he

theorem cartsPosM_aerase {κ ι : Type} [DecidableEq κ] {m : List (κ × List (ι × Int))}
    (k : κ) (hm : cartsPosM m) : cartsPosM (aerase m k) :=
  fun c hcmem e he => hm c (mem_aerase hcmem) e he

theorem cartsPosM_getD {κ ι : Type} [DecidableEq κ] {m : List (κ × List (ι × Int))}
    (hm : cartsPosM m) (k : κ) : ∀ e ∈ (alookup m k).getD [], 1 ≤ e.2 := by
  cases hl : alookup m k with
  | none => simp
  | some cart =>
    simpa using hm (k, cart) (alookup_mem hl)

/-- Claim C10 invariant for the backend store: every active (per-session)
and saved cart entry is at least 1. -/
def CInv (db : CustomerDB) : Prop :=
  cartsPosM db.session_carts ∧ cartsPosM db.saved_carts

theorem requireBuyerSession_state (db : CustomerDB) (tok : Nat) (now : ℚ) :
    ((requireBuyerSession db tok now).2.session_carts = db.session_carts ∨
      (requireBuyerSession db tok now).2.session_carts = aerase db.session_carts tok) ∧
    (requireBuyerSession db tok now).2.saved_carts = db.saved_carts := by
  unfold requireBuyerSession touchOrExpire
  cases hs : alookup db.sessions tok with
  | none => simp
  | some s =>
    by_cases hexp : (db.timeout_seconds : ℚ) ≤ now - s.last_activity
    · simp [hexp]
    · by_cases hrole : s.role = .buyer <;> simp [hexp, hrole]

theorem requireBuyerSession_CInv {db : CustomerDB} (tok : Nat) (now : ℚ) (h : CInv db) :
    CInv (requireBuyerSession db tok now).2 := by
  obtain ⟨hcarts, hsaved⟩ := requireBuyerSession_state db tok now
  constructor
  · rcases hcarts with he | he
    · rw [he]; exact h.1
    · rw [he]; exact cartsPosM_aerase _ h.1
  · rw [hsaved]; exact h.2

/-- Customer-store operations (the state-mutating endpoints of
`customer_db_server.py`). -/
inductive COp
  | createAccount (role : Role) (name pw : Str)
  | login (role : Role) (un : UserName) (pw : Str) (tok : Nat) (now : ℚ)
  | logout (tok : Nat)
  | validate (tok : Nat) (now : ℚ)
  | cartAdd (tok : Nat) (key : Str) (qty : Int) (now : ℚ)
  | cartRemove (tok : Nat) (key : Str) (qty : Int) (now : ℚ)
  | cartClear (tok : Nat) (now : ℚ)
  | cartSave (tok : Nat) (now : ℚ)

/-- One step of the backend store (the post-state of the endpoint). -/
def stepC : COp → CustomerDB → CustomerDB
  | .createAccount r n p, db => (cdbCreateAccount db r n p).2
  | .login r un pw tok now, db => (cdbLogin db r un pw tok now).2
  | .logout tok, db => cdbLogout db tok
  | .validate tok now, db => (touchOrExpire db tok now).2
  | .cartAdd tok k q now, db => (cdbCartAdd db tok k q now).2
  | .cartRemove tok k q now, db => (cdbCartRemove db tok k q now).2
  | .cartClear tok now, db => (cdbCartClear db tok now).2
  | .cartSave tok now, db => (cdbCartSave db tok now).2

/-- A sequence of backend operations. -/
def runC (ops : List COp) (db : CustomerDB) : CustomerDB :=
  ops.foldl (fun db op => stepC op db) db

theorem stepC_CInv (op : COp) (db : CustomerDB) (h : CInv db) : CInv (stepC op db) := by
  obtain ⟨hact, hsav⟩ := h
  cases op with
  | createAccount r n p =>
    simp only [stepC]
    unfold cdbCreateAccount
    by_cases hn : n.length = 0 ∨ 32 < n.length
    · rw [if_pos hn]
      exact ⟨hact, hsav⟩
    · rw [if_neg hn]
      cases r
      · exact ⟨hact, hsav⟩
      · exact ⟨hact, hsav⟩
  | login r un pw tok now =>
    simp only [stepC]
    unfold cdbLogin
    cases hres : resolveUserId db r un pw with
    | error e => exact ⟨hact, hsav⟩
    | ok o =>
      cases o with
      | none => exact ⟨hact, hsav⟩
      | some uid =>
        refine ⟨cartsPosM_aset _ hact ?_, hsav⟩
        cases r
        · exact cartsPosM_getD hsav uid
        · simp
  | logout tok =>
    exact ⟨cartsPosM_aerase _ hact, hsav⟩
  | validate tok now =>
    simp only [stepC]
    unfold touchOrExpire
    cases hs : alookup db.sessions tok with
    | none => exact ⟨hact, hsav⟩
    | some s =>
      by_cases hexp : (db.timeout_seconds : ℚ) ≤ now - s.last_activity
      · simp only [hexp, if_true]
        exact ⟨cartsPosM_aerase _ hact, hsav⟩
      · simp only [hexp, if_false]
        exact ⟨hact, hsav⟩
  | cartAdd tok k q now =>
    simp only [stepC]
    unfold cdbCartAdd
    by_cases hq : q ≤ 0
    · rw [if_pos hq]
      exact ⟨hact, hsav⟩
    · rw [if_neg hq]
      have hreq := requireBuyerSession_CInv tok now ⟨hact, hsav⟩
      rcases hr : requireBuyerSession db tok now with ⟨res, db1⟩
      rw [hr] at hreq
      cases res with
      | error e => exact hreq
      | ok s =>
        refine ⟨cartsPosM_aset _ hreq.1 ?_, hreq.2⟩
        intro e he
        rcases mem_aset he with rfl | h'
        · have hcur : 0 ≤ ((alookup ((alookup db1.session_carts tok).getD []) k).getD 0) := by
            cases hl : alookup ((alookup db1.session_carts tok).getD []) k with
            | none => simp
            | some v =>
              have hv := cartsPosM_getD hreq.1 tok (k, v) (alookup_mem hl)
              simp only [Option.getD_some]
              omega
          simp only
          omega
        · exact cartsPosM_getD hreq.1 tok e h'
  | cartRemove tok k q now =>
    simp only [stepC]
    unfold cdbCartRemove
    by_cases hq : q ≤ 0
    · rw [if_pos hq]
      exact ⟨hact, hsav⟩
    · rw [if_neg hq]
      have hreq := requireBuyerSession_CInv tok now ⟨hact, hsav⟩
      rcases hr : requireBuyerSession db tok now with ⟨res, db1⟩
      rw [hr] at hreq
      cases res with
      | error e => exact hreq
      | ok s =>
        have hcartpos : ∀ e ∈ (alookup db1.session_carts tok).getD [], 1 ≤ e.2 :=
          cartsPosM_getD hreq.1 tok
        have hset1 : cartsPosM (aset db1.session_carts tok
            ((alookup db1.session_carts tok).getD [])) :=
          cartsPosM_aset _ hreq.1 hcartpos
        simp only []
        by_cases h1 : (alookup ((alookup db1.session_carts tok).getD []) k).getD 0 ≤ 0
        · rw [if_pos h1]
          exact ⟨hset1, hreq.2⟩
        · rw [if_neg h1]
          by_cases h2 : (alookup ((alookup db1.session_carts tok).getD []) k).getD 0 < q
          · rw [if_pos h2]
            exact ⟨hset1, hreq.2⟩
          · rw [if_neg h2]
            by_cases h3 : (alookup ((alookup db1.session_carts tok).getD []) k).getD 0 - q = 0
            · rw [if_pos h3]
              refine ⟨cartsPosM_aset _ hset1 ?_, hreq.2⟩
              intro e he
              exact hcartpos e (mem_aerase he)
            · rw [if_neg h3]
              refine ⟨cartsPosM_aset _ hset1 ?_, hreq.2⟩
              intro e he
              rcases mem_aset he with rfl | h'
              · simp only
                omega
              · exact hcartpos e h'
  | cartClear tok now =>
    simp only [stepC]
    unfold cdbCartClear
    have hreq := requireBuyerSession_CInv tok now ⟨hact, hsav⟩
    rcases hr : requireBuyerSession db tok now with ⟨res, db1⟩
    rw [hr] at hreq
    cases res with
    | error e => exact hreq
    | ok s =>
      refine ⟨cartsPosM_aset _ hreq.1 ?_, hreq.2⟩
      simp
  | cartSave tok now =>
    simp only [stepC]
    unfold cdbCartSave
    have hreq := requireBuyerSession_CInv tok now ⟨hact, hsav⟩
    rcases hr : requireBuyerSession db tok now with ⟨res, db1⟩
    rw [hr] at hreq
    cases res with
    | error e => exact hreq
    | ok s =>
      exact ⟨hreq.1, cartsPosM_aset _ hreq.2 (cartsPosM_getD hreq.1 tok)⟩

theorem runC_CInv (ops : List COp) (db : CustomerDB) (h : CInv db) : CInv (runC ops db) := by
  induction ops generalizing db with
  | nil => exact h
  | cons op ops ih => exact ih _ (stepC_CInv op db h)

/-! ### Consolidated server (`src/server/state.py`, `db/inmemory.py`,
`handlers/buyer.py`, `handlers/seller.py`).

Item-table and cart keys are the strings `"category:number"` in the source,
in bijection with `ItemId`, and are modelled as `ItemId` directly.
Transaction uuids are modelled as a counter; `hash_password` (sha256) is
modelled as the identity on the already-opaque password strings, which
preserves all equality checks the source performs. -/

/-- Consolidated-server session, `state.Session` (note: no
`last_activity`, these sessions never expire). -/
structure GSession where
  principal_id : Int
  role : Role
  created_at : ℚ
deriving DecidableEq

/-- `models.TransactionLine`. -/
structure MTxnLine where
  item_id : ItemId
  seller_id : Int
  qty : Int
  price_each : ℚ
deriving DecidableEq

/-- `models.Transaction`. -/
structure MTxn where
  txn_id : Int
  buyer_id : Int
  items : List MTxnLine
  total : ℚ
  created_at : ℚ
deriving DecidableEq

/-- The consolidated state: `InMemoryDB` plus `MarketState` (sessions and
per-buyer active carts). -/
structure Market where
  sellers : List (Int × CSeller)
  buyers : List (Int × CBuyer)
  next_seller_id : Int
  next_buyer_id : Int
  sellers_by_name : List (Str × List Int)
  buyers_by_name : List (Str × List Int)
  items : List (ItemId × Item)
  next_item_number : List (Int × Int)
  sessions : List (Nat × GSession)
  carts : List (Int × List (ItemId × Int))
  saved_carts : List (Int × List (ItemId × Int))
  txns : List MTxn
deriving DecidableEq

/-- The empty consolidated state. -/
def initMarket : Market :=
  { sellers := [], buyers := [], next_seller_id := 1, next_buyer_id := 1,
    sellers_by_name := [], buyers_by_name := [], items := [], next_item_number := [],
    sessions := [], carts := [], saved_carts := [], txns := [] }

/-- Errors returned by the consolidated handlers. -/
inductive MErr
  | notLoggedIn
  | invalidCredentials
  | ambiguousName
  | badName
  | qtyNotPositive
  | itemNotFound
  | itemUnavailable
  | insufficientInventory
  | itemNotInCart
  | removeTooMany
  | notOwner
  | buyerNotFound
  | sellerNotFound
  | cartEmpty
  | checkFailed
  | badItemFields
  | itemExists
  | removeNegative
deriving DecidableEq

/-- `_require_buyer_session` from `handlers/buyer.py`. -/
def mRequireBuyer (m : Market) (tok : Nat) : Option Int :=
  match alookup m.sessions tok with
  | some s => if s.role = .buyer then some s.principal_id else none
  | none => none

/-- `_require_seller_session` from `handlers/seller.py`. -/
def mRequireSeller (m : Market) (tok : Nat) : Option Int :=
  match alookup m.sessions tok with
  | some s => if s.role = .seller then some s.principal_id else none
  | none => none

/-- `AddItemToCart` from `handlers/buyer.py`: bounds the new cart quantity
by the item's current stock. -/
def gwAddToCart (m : Market) (tok : Nat) (iid : ItemId) (qty : Int) :
    Except MErr (List (ItemId × Int)) × Market :=
  match mRequireBuyer m tok with
  | none => (.error .notLoggedIn, m)
  | some bid =>
    if qty ≤ 0 then (.error .qtyNotPositive, m)
    else
      match alookup m.items iid with
      | none => (.error .itemNotFound, m)
      | some it =>
        if it.quantity ≤ 0 then (.error .itemUnavailable, m)
        else
          let cart := (alookup m.carts bid).getD []
          let already := (alookup cart iid).getD 0
          if it.quantity < already + qty then
            (.error .insufficientInventory, { m with carts := aset m.carts bid cart })
          else
            let cart' := aset cart iid (already + qty)
            (.ok cart', { m with carts := aset m.carts bid cart' })

/-- `RemoveItemFromCart` from `handlers/buyer.py`. -/
def gwRemoveFromCart (m : Market) (tok : Nat) (iid : ItemId) (qty : Int) :
    Except MErr (List (ItemId × Int)) × Market :=
  match mRequireBuyer m tok with
  | none => (.error .notLoggedIn, m)
  | some bid =>
    if qty ≤ 0 then (.error .qtyNotPositive, m)
    else
      let cart := (alookup m.carts bid).getD []
      let m1 := { m with carts := aset m.carts bid cart }
      match alookup cart iid with
      | none => (.error .itemNotInCart, m1)
      | some cur =>
        if cur < qty then (.error .removeTooMany, m1)
        else if cur - qty = 0 then
          (.ok (aerase cart iid), { m1 with carts := aset m1.carts bid (aerase cart iid) })
        else
          (.ok (aset cart iid (cur - qty)),
           { m1 with carts := aset m1.carts bid (aset cart iid (cur - qty)) })

/-- `ClearCart` from `handlers/buyer.py`. -/
def gwClearCart (m : Market) (tok : Nat) : Except MErr Unit × Market :=
  match mRequireBuyer m tok with
  | none => (.error .notLoggedIn, m)
  | some bid => (.ok (), { m with carts := aset m.carts bid [] })

/-- `SaveCart` from `handlers/buyer.py` composed with
`InMemoryDB.save_cart`, which keeps only positive entries. -/
def gwSaveCart (m : Market) (tok : Nat) : Except MErr (List (ItemId × Int)) × Market :=
  match mRequireBuyer m tok with
  | none => (.error .notLoggedIn, m)
  | some bid =>
    let cart := (alookup m.carts bid).getD []
    let clean := cart.filter fun e => decide (0 < e.2)
    (.ok cart, { m with saved_carts := aset m.saved_carts bid clean })

/-- `DisplayCart` from `handlers/buyer.py` (read-only). -/
def gwDisplayCart (m : Market) (tok : Nat) : Except MErr (List (ItemId × Int)) :=
  match mRequireBuyer m tok with
  | none => .error .notLoggedIn
  | some bid => .ok ((alookup m.carts bid).getD [])

/-- Buyer `Logout` from `handlers/buyer.py`: clears the buyer's active cart
and deletes the session. -/
def gwLogout (m : Market) (tok : Nat) : Market :=
  let m1 : Market :=
    match alookup m.sessions tok with
    | some s =>
      if s.role = Role.buyer then { m with carts := aset m.carts s.principal_id [] } else m
    | none => m
  { m1 with sessions := aerase m1.sessions tok }

/-- Buyer `Login` by explicit `buyer_id` from `handlers/buyer.py`: checks
the credential, creates the session and loads the saved cart into the
buyer's (shared) active-cart slot. -/
def gwLoginBuyerId (m : Market) (bid : Int) (pw : Str) (tok : Nat) (now : ℚ) :
    Except MErr Int × Market :=
  match alookup m.buyers bid with
  | none => (.error .invalidCredentials, m)
  | some b =>
    if b.password_hash = pw then
      (.ok bid,
       { m with sessions := aset m.sessions tok
                  { principal_id := bid, role := .buyer, created_at := now },
                carts := aset m.carts bid ((alookup m.saved_carts bid).getD []) })
    else (.error .invalidCredentials, m)

/-- Buyer `Login` by `buyer_name` from `handlers/buyer.py`: more than one
account of that name is rejected as ambiguous before any credential is
examined. -/
def gwLoginBuyerName (m : Market) (nm : Str) (pw : Str) (tok : Nat) (now : ℚ) :
    Except MErr Int × Market :=
  let ids := (alookup m.buyers_by_name nm).getD []
  let hits := ids.filterMap fun bid => alookup m.buyers bid
  match hits with
  | [] => (.error .invalidCredentials, m)
  | [b] =>
    if b.password_hash = pw then
      (.ok b.buyer_id,
       { m with sessions := aset m.sessions tok
                  { principal_id := b.buyer_id, role := .buyer, created_at := now },
                carts := aset m.carts b.buyer_id
                  ((alookup m.saved_carts b.buyer_id).getD []) })
    else (.error .invalidCredentials, m)
  | _ => (.error .ambiguousName, m)

/-- Buyer `CreateAccount` (`handlers/buyer.py` + `InMemoryDB.add_buyer`). -/
def gwCreateBuyer (m : Market) (name pw : Str) (now : ℚ) : Except MErr Int × Market :=
  if name.length = 0 ∨ 32 < name.length then (.error .badName, m)
  else
    let bid := m.next_buyer_id
    (.ok bid,
     { m with next_buyer_id := bid + 1,
              buyers := aset m.buyers bid
                { buyer_id := bid, name := name, items_purchased := 0,
                  password_hash := pw, created_at := now },
              buyers_by_name := aset m.buyers_by_name name
                ((alookup m.buyers_by_name name).getD [] ++ [bid]) })

/-- Seller `CreateAccount` (`handlers/seller.py` + `InMemoryDB.add_seller`). -/
def gwCreateSeller (m : Market) (name pw : Str) (now : ℚ) : Except MErr Int × Market :=
  if name.length = 0 ∨ 32 < name.length then (.error .badName, m)
  else
    let sid := m.next_seller_id
    (.ok sid,
     { m with next_seller_id := sid + 1,
              sellers := aset m.sellers sid
                { seller_id := sid, name := name, feedback := ⟨0, 0⟩, items_sold := 0,
                  password_hash := pw, created_at := now },
              sellers_by_name := aset m.sellers_by_name name
                ((alookup m.sellers_by_name name).getD [] ++ [sid]) })

/-- `RegisterItemForSale` from `handlers/seller.py` with
`InMemoryDB.allocate_item_id` / `add_item`.  The condition-string
validation of the handler is modelled by the `Cond` enumeration. -/
def gwRegisterItem (m : Market) (tok : Nat) (name : Str) (category : Int)
    (kws : List Str) (c : Cond) (price : ℚ) (qty : Int) (now : ℚ) :
    Except MErr ItemId × Market :=
  match mRequireSeller m tok with
  | none => (.error .notLoggedIn, m)
  | some sid =>
    match alookup m.sellers sid with
    | none => (.error .sellerNotFound, m)
    | some _ =>
      if name.length = 0 ∨ 32 < name.length then (.error .badName, m)
      else if 5 < kws.length ∨ kws.any (fun k => 8 < k.length) then (.error .badItemFields, m)
      else if qty < 0 then (.error .badItemFields, m)
      else if price < 0 then (.error .badItemFields, m)
      else
        let n := (alookup m.next_item_number category).getD 1
        let iid : ItemId := { category := category, number := n }
        let m1 := { m with next_item_number := aset m.next_item_number category (n + 1) }
        match alookup m1.items iid with
        | some _ => (.error .itemExists, m1)
        | none =>
          let newItem : Item :=
            { item_id := iid, seller_id := sid, name := name, category := category,
              keywords := kws, condition := c, sale_price := price, quantity := qty,
              feedback := ⟨0, 0⟩, created_at := now }
          (.ok iid, { m1 with items := aset m1.items iid newItem })

/-- `UpdateUnitsForSale` from `handlers/seller.py` with
`InMemoryDB.remove_units_for_sale`. -/
def gwRemoveUnits (m : Market) (tok : Nat) (iid : ItemId) (rq : Int) :
    Except MErr Int × Market :=
  match mRequireSeller m tok with
  | none => (.error .notLoggedIn, m)
  | some sid =>
    match alookup m.items iid with
    | none => (.error .itemNotFound, m)
    | some it =>
      if it.seller_id ≠ sid then (.error .notOwner, m)
      else if rq < 0 then (.error .removeNegative, m)
      else if it.quantity < rq then (.error .removeTooMany, m)
      else
        (.ok (it.quantity - rq),
         { m with items := aset m.items iid ({ it with quantity := it.quantity - rq } : Item) })

/-- Validity of one cart line against the current store, as checked by the
validation loop of `_do_purchase`: the item exists, the quantity is
positive and covered by stock. -/
def lineOKb (m : Market) (e : ItemId × Int) : Bool :=
  match alookup m.items e.1 with
  | none => false
  | some it => decide (0 < e.2 ∧ e.2 ≤ it.quantity)

theorem lineOKb_iff (m : Market) (e : ItemId × Int) :
    lineOKb m e = true ↔
      ∃ it, alookup m.items e.1 = some it ∧ 0 < e.2 ∧ e.2 ≤ it.quantity := by
  unfold lineOKb
  cases h : alookup m.items e.1 <;> simp

/-- The apply loop of `_do_purchase`: for each cart line, re-read the item,
accumulate the total and the transaction line, decrement the inventory and
credit the seller's `items_sold`.  A missing item (the source's `assert`)
or missing seller raises out of the loop with the mutations so far kept. -/
def applyLines (now : ℚ) : List (ItemId × Int) → Market → ℚ → Int → List MTxnLine →
    Except MErr (ℚ × Int × List MTxnLine) × Market
  | [], m, total, units, lines => (.ok (total, units, lines), m)
  | (iid, qty) :: rest, m, total, units, lines =>
    match alookup m.items iid with
    | none => (.error .checkFailed, m)
    | some it =>
      let m1 := { m with items := aset m.items iid ({ it with quantity := it.quantity - qty } : Item) }
      match alookup m.sellers it.seller_id with
      | none => (.error .sellerNotFound, m1)
      | some sel =>
        let sel2 : CSeller := { sel with items_sold := sel.items_sold + qty }
        let m2 := { m1 with sellers := aset m1.sellers it.seller_id sel2 }
        applyLines now rest m2 (total + it.sale_price * qty) (units + qty)
          (lines ++ [{ item_id := iid, seller_id := it.seller_id, qty := qty,
                       price_each := it.sale_price }])

/-- `_do_purchase` from `handlers/buyer.py`: copy and clear the buyer's
active cart, validate every line, then apply the updates and record the
transaction.  Transaction uuids are modelled by the transaction count. -/
def doPurchase (m : Market) (bid : Int) (now : ℚ) : Except MErr MTxn × Market :=
  match alookup m.buyers bid with
  | none => (.error .buyerNotFound, m)
  | some _ =>
    let cart := (alookup m.carts bid).getD []
    let m1 := { m with carts := aset m.carts bid [] }
    if cart.isEmpty then (.error .cartEmpty, m1)
    else if cart.all (fun e => lineOKb m1 e) then
      match applyLines now cart m1 0 0 [] with
      | (.error e, m2) => (.error e, m2)
      | (.ok (total, units, lines), m2) =>
        match alookup m2.buyers bid with
        | none => (.error .buyerNotFound, m2)
        | some b =>
          let b2 : CBuyer := { b with items_purchased := b.items_purchased + units }
          let m3 := { m2 with buyers := aset m2.buyers bid b2 }
          let txn : MTxn := { txn_id := (m3.txns.length : Int), buyer_id := bid,
                              items := lines, total := total, created_at := now }
          (.ok txn, { m3 with txns := m3.txns ++ [txn] })
    else (.error .checkFailed, m1)

/-- `MakePurchase` from `handlers/buyer.py`. -/
def gwPurchase (m : Market) (tok : Nat) (now : ℚ) : Except MErr MTxn × Market :=
  match mRequireBuyer m tok with
  | none => (.error .notLoggedIn, m)
  | some bid => doPurchase m bid now

/-- `ProductDB.update_units_remove` from the distributed backend, acting on
its item table. -/
def pdbUpdateUnitsRemove (items : List (ItemId × Item)) (sid : Int) (iid : ItemId)
    (q : Int) : Except MErr Int × List (ItemId × Item) :=
  if q ≤ 0 then (.error .removeNegative, items)
  else
    match alookup items iid with
    | none => (.error .itemNotFound, items)
    | some it =>
      if it.seller_id ≠ sid then (.error .notOwner, items)
      else if it.quantity < q then (.error .removeTooMany, items)
      else (.ok (it.quantity - q), aset items iid ({ it with quantity := it.quantity - q } : Item))

/-- Consolidated-server operations used by the invariant claims. -/
inductive MOp
  | createBuyer (name pw : Str) (now : ℚ)
  | createSeller (name pw : Str) (now : ℚ)
  | loginBuyerId (bid : Int) (pw : Str) (tok : Nat) (now : ℚ)
  | loginBuyerName (name pw : Str) (tok : Nat) (now : ℚ)
  | logout (tok : Nat)
  | registerItem (tok : Nat) (name : Str) (category : Int) (kws : List Str) (c : Cond)
      (price : ℚ) (qty : Int) (now : ℚ)
  | removeUnits (tok : Nat) (iid : ItemId) (q : Int)
  | addToCart (tok : Nat) (iid : ItemId) (q : Int)
  | removeFromCart (tok : Nat) (iid : ItemId) (q : Int)
  | clearCart (tok : Nat)
  | saveCart (tok : Nat)
  | purchase (tok : Nat) (now : ℚ)

/-- One consolidated-server step (the post-state of the handler). -/
def stepM : MOp → Market → Market
  | .createBuyer n p now, m => (gwCreateBuyer m n p now).2
  | .createSeller n p now, m => (gwCreateSeller m n p now).2
  | .loginBuyerId bid pw tok now, m => (gwLoginBuyerId m bid pw tok now).2
  | .loginBuyerName nm pw tok now, m => (gwLoginBuyerName m nm pw tok now).2
  | .logout tok, m => gwLogout m tok
  | .registerItem tok n cat kws c price qty now, m =>
      (gwRegisterItem m tok n cat kws c price qty now).2
  | .removeUnits tok iid q, m => (gwRemoveUnits m tok iid q).2
  | .addToCart tok iid q, m => (gwAddToCart m tok iid q).2
  | .removeFromCart tok iid q, m => (gwRemoveFromCart m tok iid q).2
  | .clearCart tok, m => (gwClearCart m tok).2
  | .saveCart tok, m => (gwSaveCart m tok).2
  | .purchase tok now, m => (gwPurchase m tok now).2

/-- A sequence of consolidated-server operations. -/
def runM (ops : List MOp) (m : Market) : Market :=
  ops.foldl (fun m op => stepM op m) m

/-! ### Market invariants: nonnegative stock, positive cart entries -/

/-- Every item in the table has nonnegative quantity. -/
def itemsNonneg (items : List (ItemId × Item)) : Prop :=
  ∀ e ∈ items, 0 ≤ e.2.quantity

/-- Every stored cart has duplicate-free keys (Python dicts cannot hold
duplicate keys). -/
def cartsKeysNodup {κ : Type} (carts : List (κ × List (ItemId × Int))) : Prop :=
  ∀ c ∈ carts, (c.2.map Prod.fst).Nodup

/-- Reachability invariant of the consolidated server. -/
def MInv (m : Market) : Prop :=
  itemsNonneg m.items ∧ cartsPosM m.carts ∧ cartsPosM m.saved_carts ∧
    cartsKeysNodup m.carts ∧ cartsKeysNodup m.saved_carts

theorem itemsNonneg_aset {items : List (ItemId × Item)} (h : itemsNonneg items)
    {iid : ItemId} {it : Item} (hq : 0 ≤ it.quantity) :
    itemsNonneg (aset items iid it) := by
  intro e he
  rcases mem_aset he with rfl | h'
  · exact hq
  · exact h e h'

theorem cartsKeysNodup_aset {κ : Type} [DecidableEq κ]
    {carts : List (κ × List (ItemId × Int))} (h : cartsKeysNodup carts) (k : κ)
    {cart : List (ItemId × Int)} (hc : (cart.map Prod.fst).Nodup) :
    cartsKeysNodup (aset carts k cart) := by
  intro c hcm
  rcases mem_aset hcm with rfl | h'
  · exact hc
  · exact h c h'

theorem cartsKeysNodup_getD {κ : Type} [DecidableEq κ]
    {carts : List (κ × List (ItemId × Int))} (h : cartsKeysNodup carts) (k : κ) :
    (((alookup carts k).getD []).map Prod.fst).Nodup := by
  cases hl : alookup carts k with
  | none => simp
  | some cart => simpa using h (k, cart) (alookup_mem hl)

theorem alookup_aset_isSome {κ α : Type} [DecidableEq κ] {m : List (κ × α)} {k' : κ}
    (k : κ) (v : α) (h : (alookup m k').isSome = true) :
    (alookup (aset m k v) k').isSome = true := by
  by_cases he : k' = k
  · subst he
    rw [alookup_aset_self]
    rfl
  · rw [alookup_aset_ne _ _ _ _ he]
    exact h

/-- `applyLines` only mutates items and sellers: every other component of
the state is framed. -/
theorem applyLines_frame (now : ℚ) (lines : List (ItemId × Int)) (m : Market)
    (total : ℚ) (units : Int) (acc : List MTxnLine) :
    (applyLines now lines m total units acc).2.carts = m.carts ∧
    (applyLines now lines m total units acc).2.saved_carts = m.saved_carts ∧
    (applyLines now lines m total units acc).2.txns = m.txns ∧
    (applyLines now lines m total units acc).2.buyers = m.buyers ∧
    (applyLines now lines m total units acc).2.sessions = m.sessions := by
  induction lines generalizing m total units acc with
  | nil => exact ⟨rfl, rfl, rfl, rfl, rfl⟩
  | cons e rest ih =>
    obtain ⟨iid, qty⟩ := e
    unfold applyLines
    cases hit : alookup m.items iid with
    | none => exact ⟨rfl, rfl, rfl, rfl, rfl⟩
    | some it =>
      simp only []
      cases hsel : alookup m.sellers it.seller_id with
      | none => exact ⟨rfl, rfl, rfl, rfl, rfl⟩
      | some sel => exact ih _ _ _ _

/-- After a validated pass, `applyLines` keeps every item quantity
nonnegative (the cart's keys are distinct, so each item is decremented
exactly once, by a quantity its validated stock covers). -/
theorem applyLines_itemsNonneg (now : ℚ) (lines : List (ItemId × Int)) (m : Market)
    (total : ℚ) (units : Int) (acc : List MTxnLine)
    (hval : ∀ e ∈ lines, lineOKb m e = true) (hn : (lines.map Prod.fst).Nodup)
    (hitems : itemsNonneg m.items) :
    itemsNonneg (applyLines now lines m total units acc).2.items := by
  induction lines generalizing m total units acc with
  | nil => exact hitems
  | cons e rest ih =>
    obtain ⟨iid, qty⟩ := e
    obtain ⟨it, hit, hq, hle⟩ := (lineOKb_iff m _).mp (hval _ (List.mem_cons_self _ _))
    unfold applyLines
    simp only at hit
    rw [hit]
    simp only []
    have hm1 : itemsNonneg (aset m.items iid { it with quantity := it.quantity - qty }) :=
      itemsNonneg_aset hitems (by simp only; omega)
    cases hsel : alookup m.sellers it.seller_id with
    | none => exact hm1
    | some sel =>
      simp only [List.map_cons, List.nodup_cons] at hn
      apply ih
      · intro e he
        obtain ⟨it', hit', hq', hle'⟩ := (lineOKb_iff m _).mp (hval e (List.mem_cons_of_mem _ he))
        refine (lineOKb_iff _ _).mpr ⟨it', ?_, hq', hle'⟩
        have hne : e.1 ≠ iid := fun hc => hn.1 (hc ▸ List.mem_map_of_mem Prod.fst he)
        simpa [alookup_aset_ne _ _ _ _ hne] using hit'
      · exact hn.2
      · exact hm1

/-- Seller presence: every listed item's owner exists in the seller table
(holds in every reachable state, since items are only registered by an
existing seller and sellers are never deleted). -/
def sellersPresent (m : Market) : Prop :=
  ∀ e ∈ m.items, (alookup m.sellers e.2.seller_id).isSome = true

instance (m : Market) : Decidable (sellersPresent m) :=
  inferInstanceAs (Decidable (∀ e ∈ m.items, (alookup m.sellers e.2.seller_id).isSome = true))

/-- Under seller presence, the apply loop of `_do_purchase` cannot fail
once every cart line's item exists. -/
theorem applyLines_ok (now : ℚ) (lines : List (ItemId × Int)) (m : Market)
    (total : ℚ) (units : Int) (acc : List MTxnLine)
    (hval : ∀ e ∈ lines, (alookup m.items e.1).isSome = true)
    (hsell : sellersPresent m) :
    ∃ r m', applyLines now lines m total units acc = (.ok r, m') := by
  induction lines generalizing m total units acc with
  | nil => exact ⟨_, _, rfl⟩
  | cons e rest ih =>
    obtain ⟨iid, qty⟩ := e
    have hex := hval _ (List.mem_cons_self _ _)
    unfold applyLines
    cases hit : alookup m.items iid with
    | none => simp only at hex; rw [hit] at hex; simp at hex
    | some it =>
      simp only []
      have hselit : (alookup m.sellers it.seller_id).isSome = true :=
        hsell (iid, it) (alookup_mem hit)
      cases hsel : alookup m.sellers it.seller_id with
      | none => rw [hsel] at hselit; simp at hselit
      | some sel =>
        apply ih
        · intro e he
          by_cases hne : e.1 = iid
          · rw [hne]
            simp only [alookup_aset_self]
            rfl
          · simp only [alookup_aset_ne _ _ _ _ hne]
            exact hval e (List.mem_cons_of_mem _ he)
        · intro e he
          simp only
          have hpres : (alookup m.sellers e.2.seller_id).isSome = true := by
            rcases mem_aset he with rfl | h'
            · exact hselit
            · exact hsell e h'
          exact alookup_aset_isSome _ _ hpres

/-- Effect summary of `_do_purchase`: under seller presence, a failing
checkout leaves the whole state unchanged (unknown buyer) or exactly
equal to the original state with the buyer's active cart emptied; a
successful checkout appends the transaction and leaves the cart empty. -/
theorem doPurchase_spec (m : Market) (bid : Int) (now : ℚ) (hsell : sellersPresent m) :
    (∀ err, (doPurchase m bid now).1 = Except.error err →
      ((doPurchase m bid now).2 = m ∨
        (doPurchase m bid now).2 = { m with carts := aset m.carts bid [] })) ∧
    (∀ txn, (doPurchase m bid now).1 = Except.ok txn →
      (doPurchase m bid now).2.txns = m.txns ++ [txn] ∧
      (doPurchase m bid now).2.carts = aset m.carts bid []) := by
  unfold doPurchase
  cases hb : alookup m.buyers bid with
  | none =>
    refine ⟨fun err _ => Or.inl rfl, fun txn h => ?_⟩
    simp at h
  | some b0 =>
    simp only []
    by_cases hemp : ((alookup m.carts bid).getD []).isEmpty = true
    · rw [if_pos hemp]
      refine ⟨fun err _ => Or.inr rfl, fun txn h => ?_⟩
      simp at h
    · rw [if_neg hemp]
      by_cases hvalid : ((alookup m.carts bid).getD []).all
          (fun e => lineOKb { m with carts := aset m.carts bid [] } e) = true
      · rw [if_pos hvalid]
        have hval : ∀ e ∈ (alookup m.carts bid).getD [],
            (alookup ({ m with carts := aset m.carts bid [] } : Market).items e.1).isSome
              = true := by
          intro e he
          have hx := (List.all_eq_true.mp hvalid) e he
          obtain ⟨it, hit, -, -⟩ := (lineOKb_iff _ _).mp hx
          rw [hit]
          rfl
        have hsell1 : sellersPresent { m with carts := aset m.carts bid [] } := hsell
        obtain ⟨r, m', hap⟩ := applyLines_ok now ((alookup m.carts bid).getD [])
          { m with carts := aset m.carts bid [] } 0 0 [] hval hsell1
        obtain ⟨t, u, ls⟩ := r
        have hframe := applyLines_frame now ((alookup m.carts bid).getD [])
          { m with carts := aset m.carts bid [] } 0 0 []
        rw [hap] at hframe
        rw [hap]
        simp only []
        have hbuy : alookup m'.buyers bid = some b0 := by
          have hbeq : m'.buyers = m.buyers := hframe.2.2.2.1
          rw [hbeq, hb]
        rw [hbuy]
        simp only []
        refine ⟨fun err h => ?_, fun txn h => ?_⟩
        · simp at h
        · simp only [Except.ok.injEq] at h
          subst h
          refine ⟨?_, ?_⟩
          · rw [hframe.2.2.1]
          · rw [hframe.1]
      · rw [if_neg hvalid]
        refine ⟨fun err _ => Or.inr rfl, fun txn h => ?_⟩
        simp at h

/-- Claim C5, amended: when checkout fails, no transaction is recorded and
no item quantity, seller counter, buyer counter or saved cart changes —
but the buyer's active cart, copied and cleared at the start of
`_do_purchase`, is lost (emptied) on every failure after the buyer lookup;
a Transaction is appended exactly when the whole purchase succeeds.
`sellersPresent` is the reachability invariant that every listed item's
seller exists. -/
theorem c5_checkout_failure_effects (m : Market) (bid : Int) (now : ℚ)
    (hsell : sellersPresent m) :
    (∀ err, (doPurchase m bid now).1 = Except.error err →
      (doPurchase m bid now).2.items = m.items ∧
      (doPurchase m bid now).2.txns = m.txns ∧
      (doPurchase m bid now).2.sellers = m.sellers ∧
      (doPurchase m bid now).2.buyers = m.buyers ∧
      (doPurchase m bid now).2.saved_carts = m.saved_carts ∧
      ((doPurchase m bid now).2.carts = m.carts ∨
        (doPurchase m bid now).2.carts = aset m.carts bid [])) ∧
    (∀ txn, (doPurchase m bid now).1 = Except.ok txn →
      (doPurchase m bid now).2.txns = m.txns ++ [txn]) := by
  obtain ⟨he, hk⟩ := doPurchase_spec m bid now hsell
  refine ⟨fun err h => ?_, fun txn h => (hk txn h).1⟩
  rcases he err h with h2 | h2 <;> rw [h2] <;> simp

/-- State for the claim C5 counterexample and witness: buyer 1's cart asks
for 5 units of item (1,1), but only 3 are in stock. -/
def c5Market : Market :=
  { initMarket with
    buyers := [(1, { buyer_id := 1, name := [98], items_purchased := 0,
                     password_hash := [112], created_at := 0 })],
    sellers := [(9, { seller_id := 9, name := [115], feedback := ⟨0, 0⟩, items_sold := 0,
                      password_hash := [112], created_at := 0 })],
    items := [(⟨1, 1⟩, { item_id := ⟨1, 1⟩, seller_id := 9, name := [105], category := 1,
                         keywords := [], condition := .new, sale_price := 2, quantity := 3,
                         feedback := ⟨0, 0⟩, created_at := 0 })],
    carts := [(1, [(⟨1, 1⟩, 5)])] }

/-- Counterexample to claim C5 as stated: checkout fails (insufficient
inventory), yet the buyer's active cart is not what it was before the
call — `_do_purchase` clears it before validating and never restores it.
No transaction is recorded and the item quantity is untouched. -/
theorem c5_failed_checkout_loses_cart_counterexample :
    (doPurchase c5Market 1 0).1 = Except.error MErr.checkFailed ∧
    alookup c5Market.carts 1 = some [(⟨1, 1⟩, 5)] ∧
    alookup (doPurchase c5Market 1 0).2.carts 1 = some [] ∧
    (doPurchase c5Market 1 0).2.items = c5Market.items ∧
    (doPurchase c5Market 1 0).2.txns = c5Market.txns := by
  exact ⟨by decide, by decide, by decide, by decide, by decide⟩

/-- Witness for claim C5: the amended theorem applied to the concrete
failing state `c5Market`, with seller presence and the failure hypothesis
discharged by evaluation. -/
theorem c5_checkout_failure_effects_witness :
    (doPurchase c5Market 1 0).2.items = c5Market.items ∧
    (doPurchase c5Market 1 0).2.txns = c5Market.txns ∧
    (doPurchase c5Market 1 0).2.buyers = c5Market.buyers ∧
    ((doPurchase c5Market 1 0).2.carts = c5Market.carts ∨
      (doPurchase c5Market 1 0).2.carts = aset c5Market.carts 1 []) := by
  obtain ⟨he, -⟩ := c5_checkout_failure_effects c5Market 1 0 (by decide)
  obtain ⟨h1, h2, h3, h4, h5, h6⟩ := he MErr.checkFailed (by decide)
  exact ⟨h1, h2, h4, h6⟩

theorem stepM_MInv (op : MOp) (m : Market) (h : MInv m) : MInv (stepM op m) := by
  obtain ⟨hitems, hcpos, hspos, hcnod, hsnod⟩ := h
  cases op with
  | createBuyer n p now =>
    simp only [stepM]
    unfold gwCreateBuyer
    by_cases hn : n.length = 0 ∨ 32 < n.length
    · rw [if_pos hn]
      exact ⟨hitems, hcpos, hspos, hcnod, hsnod⟩
    · rw [if_neg hn]
      exact ⟨hitems, hcpos, hspos, hcnod, hsnod⟩
  | createSeller n p now =>
    simp only [stepM]
    unfold gwCreateSeller
    by_cases hn : n.length = 0 ∨ 32 < n.length
    · rw [if_pos hn]
      exact ⟨hitems, hcpos, hspos, hcnod, hsnod⟩
    · rw [if_neg hn]
      exact ⟨hitems, hcpos, hspos, hcnod, hsnod⟩
  | loginBuyerId bid pw tok now =>
    simp only [stepM]
    unfold gwLoginBuyerId
    cases hb : alookup m.buyers bid with
    | none => exact ⟨hitems, hcpos, hspos, hcnod, hsnod⟩
    | some b =>
      simp only []
      by_cases hpw : b.password_hash = pw
      · rw [if_pos hpw]
        refine ⟨hitems, cartsPosM_aset _ hcpos (cartsPosM_getD hspos bid),
          hspos, cartsKeysNodup_aset hcnod _ (cartsKeysNodup_getD hsnod bid), hsnod⟩
      · rw [if_neg hpw]
        exact ⟨hitems, hcpos, hspos, hcnod, hsnod⟩
  | loginBuyerName nm pw tok now =>
    simp only [stepM]
    unfold gwLoginBuyerName
    simp only []
    rcases hhits : ((alookup m.buyers_by_name nm).getD []).filterMap
        (fun bid => alookup m.buyers bid) with - | ⟨b, - | ⟨b2, t⟩⟩
    · exact ⟨hitems, hcpos, hspos, hcnod, hsnod⟩
    · simp only []
      by_cases hpw : b.password_hash = pw
      · rw [if_pos hpw]
        refine ⟨hitems, cartsPosM_aset _ hcpos (cartsPosM_getD hspos b.buyer_id),
          hspos, cartsKeysNodup_aset hcnod _ (cartsKeysNodup_getD hsnod b.buyer_id), hsnod⟩
      · rw [if_neg hpw]
        exact ⟨hitems, hcpos, hspos, hcnod, hsnod⟩
    · exact ⟨hitems, hcpos, hspos, hcnod, hsnod⟩
  | logout tok =>
    simp only [stepM]
    unfold gwLogout
    cases hs : alookup m.sessions tok with
    | none => exact ⟨hitems, hcpos, hspos, hcnod, hsnod⟩
    | some s =>
      simp only []
      by_cases hrole : s.role = Role.buyer
      · rw [if_pos hrole]
        refine ⟨hitems, cartsPosM_aset _ hcpos (by simp),
          hspos, cartsKeysNodup_aset hcnod _ (by simp), hsnod⟩
      · rw [if_neg hrole]
        exact ⟨hitems, hcpos, hspos, hcnod, hsnod⟩
  | registerItem tok n cat kws c price qty now =>
    simp only [stepM]
    unfold gwRegisterItem
    cases hreq : mRequireSeller m tok with
    | none => exact ⟨hitems, hcpos, hspos, hcnod, hsnod⟩
    | some sid =>
      simp only []
      cases hsl : alookup m.sellers sid with
      | none => exact ⟨hitems, hcpos, hspos, hcnod, hsnod⟩
      | some sel =>
        simp only []
        by_cases h1 : n.length = 0 ∨ 32 < n.length
        · rw [if_pos h1]
          exact ⟨hitems, hcpos, hspos, hcnod, hsnod⟩
        · rw [if_neg h1]
          by_cases h2 : 5 < kws.length ∨ kws.any (fun k => 8 < k.length) = true
          · rw [if_pos h2]
            exact ⟨hitems, hcpos, hspos, hcnod, hsnod⟩
          · rw [if_neg h2]
            by_cases h3 : qty < 0
            · rw [if_pos h3]
              exact ⟨hitems, hcpos, hspos, hcnod, hsnod⟩
            · rw [if_neg h3]
              by_cases h4 : price < 0
              · rw [if_pos h4]
                exact ⟨hitems, hcpos, hspos, hcnod, hsnod⟩
              · rw [if_neg h4]
                cases hex : alookup m.items
                    ⟨cat, (alookup m.next_item_number cat).getD 1⟩ with
                | some _ => exact ⟨hitems, hcpos, hspos, hcnod, hsnod⟩
                | none =>
                  refine ⟨itemsNonneg_aset hitems (by simp only; omega),
                    hcpos, hspos, hcnod, hsnod⟩
  | removeUnits tok iid q =>
    simp only [stepM]
    unfold gwRemoveUnits
    cases hreq : mRequireSeller m tok with
    | none => exact ⟨hitems, hcpos, hspos, hcnod, hsnod⟩
    | some sid =>
      simp only []
      cases hit : alookup m.items iid with
      | none => exact ⟨hitems, hcpos, hspos, hcnod, hsnod⟩
      | some it =>
        simp only []
        by_cases h1 : it.seller_id ≠ sid
        · rw [if_pos h1]
          exact ⟨hitems, hcpos, hspos, hcnod, hsnod⟩
        · rw [if_neg h1]
          by_cases h2 : q < 0
          · rw [if_pos h2]
            exact ⟨hitems, hcpos, hspos, hcnod, hsnod⟩
          · rw [if_neg h2]
            by_cases h3 : it.quantity < q
            · rw [if_pos h3]
              exact ⟨hitems, hcpos, hspos, hcnod, hsnod⟩
            · rw [if_neg h3]
              refine ⟨itemsNonneg_aset hitems (by simp only; omega),
                hcpos, hspos, hcnod, hsnod⟩
  | addToCart tok iid q =>
    simp only [stepM]
    unfold gwAddToCart
    cases hreq : mRequireBuyer m tok with
    | none => exact ⟨hitems, hcpos, hspos, hcnod, hsnod⟩
    | some bid =>
      simp only []
      by_cases hq : q ≤ 0
      · rw [if_pos hq]
        exact ⟨hitems, hcpos, hspos, hcnod, hsnod⟩
      · rw [if_neg hq]
        cases hit : alookup m.items iid with
        | none => exact ⟨hitems, hcpos, hspos, hcnod, hsnod⟩
        | some it =>
          simp only []
          by_cases h1 : it.quantity ≤ 0
          · rw [if_pos h1]
            exact ⟨hitems, hcpos, hspos, hcnod, hsnod⟩
          · rw [if_neg h1]
            by_cases h2 : it.quantity <
                (alookup ((alookup m.carts bid).getD []) iid).getD 0 + q
            · rw [if_pos h2]
              exact ⟨hitems, cartsPosM_aset _ hcpos (cartsPosM_getD hcpos bid),
                hspos, cartsKeysNodup_aset hcnod _ (cartsKeysNodup_getD hcnod bid), hsnod⟩
            · rw [if_neg h2]
              refine ⟨hitems, cartsPosM_aset _ hcpos ?_, hspos,
                cartsKeysNodup_aset hcnod _
                  (aset_keys_nodup _ _ (cartsKeysNodup_getD hcnod bid)), hsnod⟩
              intro e he
              rcases mem_aset he with rfl | h'
              · have hcur : 0 ≤ (alookup ((alookup m.carts bid).getD []) iid).getD 0 := by
                  cases hl : alookup ((alookup m.carts bid).getD []) iid with
                  | none => simp
                  | some v =>
                    have hv := cartsPosM_getD hcpos bid (iid, v) (alookup_mem hl)
                    simp only [Option.getD_some]
                    omega
                simp only
                omega
              · exact cartsPosM_getD hcpos bid e h'
  | removeFromCart tok iid q =>
    simp only [stepM]
    unfold gwRemoveFromCart
    cases hreq : mRequireBuyer m tok with
    | none => exact ⟨hitems, hcpos, hspos, hcnod, hsnod⟩
    | some bid =>
      simp only []
      by_cases hq : q ≤ 0
      · rw [if_pos hq]
        exact ⟨hitems, hcpos, hspos, hcnod, hsnod⟩
      · rw [if_neg hq]
        have hcart : ∀ e ∈ (alookup m.carts bid).getD [], 1 ≤ e.2 :=
          cartsPosM_getD hcpos bid
        have hcartnod := cartsKeysNodup_getD hcnod bid
        have hset0 : cartsPosM (aset m.carts bid ((alookup m.carts bid).getD [])) :=
          cartsPosM_aset _ hcpos hcart
        have hsetnod := cartsKeysNodup_aset hcnod bid hcartnod
        cases hcur : alookup ((alookup m.carts bid).getD []) iid with
        | none => exact ⟨hitems, hset0, hspos, hsetnod, hsnod⟩
        | some cur =>
          simp only []
          by_cases h1 : cur < q
          · rw [if_pos h1]
            exact ⟨hitems, hset0, hspos, hsetnod, hsnod⟩
          · rw [if_neg h1]
            have hcur1 : 1 ≤ cur := hcart (iid, cur) (alookup_mem hcur)
            by_cases h2 : cur - q = 0
            · rw [if_pos h2]
              refine ⟨hitems, cartsPosM_aset _ hset0 ?_, hspos,
                cartsKeysNodup_aset hsetnod _
                  (hcartnod.sublist ((aerase_sublist _ _).map Prod.fst)), hsnod⟩
              intro e he
              exact hcart e (mem_aerase he)
            · rw [if_neg h2]
              refine ⟨hitems, cartsPosM_aset _ hset0 ?_, hspos,
                cartsKeysNodup_aset hsetnod _ (aset_keys_nodup _ _ hcartnod), hsnod⟩
              intro e he
              rcases mem_aset he with rfl | h'
              · simp only
                omega
              · exact hcart e h'
  | clearCart tok =>
    simp only [stepM]
    unfold gwClearCart
    cases hreq : mRequireBuyer m tok with
    | none => exact ⟨hitems, hcpos, hspos, hcnod, hsnod⟩
    | some bid =>
      exact ⟨hitems, cartsPosM_aset _ hcpos (by simp), hspos,
        cartsKeysNodup_aset hcnod _ (by simp), hsnod⟩
  | saveCart tok =>
    simp only [stepM]
    unfold gwSaveCart
    cases hreq : mRequireBuyer m tok with
    | none => exact ⟨hitems, hcpos, hspos, hcnod, hsnod⟩
    | some bid =>
      simp only []
      refine ⟨hitems, hcpos, cartsPosM_aset _ hspos ?_, hcnod,
        cartsKeysNodup_aset hsnod _
          ((cartsKeysNodup_getD hcnod bid).sublist
            ((List.filter_sublist _).map Prod.fst))⟩
      intro e he
      have := List.of_mem_filter he
      simp only [decide_eq_true_eq] at this
      omega
  | purchase tok now =>
    simp only [stepM]
    unfold gwPurchase
    cases hreq : mRequireBuyer m tok with
    | none => exact ⟨hitems, hcpos, hspos, hcnod, hsnod⟩
    | some bid =>
      simp only []
      unfold doPurchase
      cases hb : alookup m.buyers bid with
      | none => exact ⟨hitems, hcpos, hspos, hcnod, hsnod⟩
      | some b0 =>
        simp only []
        have hcartnod := cartsKeysNodup_getD hcnod bid
        have hclr : cartsPosM (aset m.carts bid ([] : List (ItemId × Int))) :=
          cartsPosM_aset _ hcpos (by simp)
        have hclrnod : cartsKeysNodup (aset m.carts bid ([] : List (ItemId × Int))) :=
          cartsKeysNodup_aset hcnod bid (by simp)
        by_cases hemp : ((alookup m.carts bid).getD []).isEmpty = true
        · rw [if_pos hemp]
          exact ⟨hitems, hclr, hspos, hclrnod, hsnod⟩
        · rw [if_neg hemp]
          by_cases hvalid : ((alookup m.carts bid).getD []).all
              (fun e => lineOKb { m with carts := aset m.carts bid [] } e) = true
          · rw [if_pos hvalid]
            have hval : ∀ e ∈ (alookup m.carts bid).getD [],
                lineOKb ({ m with carts := aset m.carts bid [] } : Market) e = true :=
              List.all_eq_true.mp hvalid
            have happ := applyLines_itemsNonneg now ((alookup m.carts bid).getD [])
              { m with carts := aset m.carts bid [] } 0 0 [] hval hcartnod hitems
            have hframe := applyLines_frame now ((alookup m.carts bid).getD [])
              { m with carts := aset m.carts bid [] } 0 0 []
            rcases hap : applyLines now ((alookup m.carts bid).getD [])
                { m with carts := aset m.carts bid [] } 0 0 [] with ⟨res, m2⟩
            rw [hap] at happ hframe
            have hm2 : MInv m2 :=
              ⟨happ, hframe.1 ▸ hclr, hframe.2.1 ▸ hspos, hframe.1 ▸ hclrnod,
               hframe.2.1 ▸ hsnod⟩
            obtain ⟨h2items, h2cpos, h2spos, h2cnod, h2snod⟩ := hm2
            cases res with
            | error e => exact ⟨h2items, h2cpos, h2spos, h2cnod, h2snod⟩
            | ok r =>
              obtain ⟨t, u, ls⟩ := r
              simp only []
              cases hb2 : alookup m2.buyers bid with
              | none => exact ⟨h2items, h2cpos, h2spos, h2cnod, h2snod⟩
              | some b1 => exact ⟨h2items, h2cpos, h2spos, h2cnod, h2snod⟩
          · rw [if_neg hvalid]
            exact ⟨hitems, hclr, hspos, hclrnod, hsnod⟩

theorem runM_MInv (ops : List MOp) (m : Market) (h : MInv m) : MInv (runM ops m) := by
  induction ops generalizing m with
  | nil => exact h
  | cons op ops ih => exact ih _ (stepM_MInv op m h)

theorem initMarket_MInv : MInv initMarket := by
  refine ⟨?_, ?_, ?_, ?_, ?_⟩ <;> intro c hc <;> simp [initMarket] at hc

/-- C4: every item's stored quantity is nonnegative after each operation of
any sequence of registrations, unit removals, cart mutations and
checkouts run by the consolidated server from its empty state, and the
distributed backend's `ProductDB.update_units_remove` also preserves
nonnegativity of the whole item table (it rejects removing more than is
available). -/
theorem c4_item_quantity_nonnegative :
    (∀ ops : List MOp, itemsNonneg (runM ops initMarket).items) ∧
    (∀ (items : List (ItemId × Item)) (sid : Int) (iid : ItemId) (q : Int),
      itemsNonneg items →
      itemsNonneg (pdbUpdateUnitsRemove items sid iid q).2) := by
  constructor
  · intro ops
    exact (runM_MInv ops initMarket initMarket_MInv).1
  · intro items sid iid q h
    unfold pdbUpdateUnitsRemove
    by_cases h0 : q ≤ 0
    · rw [if_pos h0]
      exact h
    · rw [if_neg h0]
      cases hl : alookup items iid with
      | none => exact h
      | some it =>
        simp only []
        by_cases h1 : it.seller_id ≠ sid
        · rw [if_pos h1]
          exact h
        · rw [if_neg h1]
          by_cases h2 : it.quantity < q
          · rw [if_pos h2]
            exact h
          · rw [if_neg h2]
            refine itemsNonneg_aset h ?_
            show (0 : Int) ≤ it.quantity - q
            omega

/-- Concrete one-item table for the C4 witness: seller 7 owns two units of
item (1,1). -/
def c4Items : List (ItemId × Item) :=
  [(⟨1, 1⟩,
    { item_id := ⟨1, 1⟩, seller_id := 7, name := [120], category := 1,
      keywords := [], condition := .new, sale_price := 5, quantity := 2,
      feedback := ⟨0, 0⟩, created_at := 0 })]

/-- Witness for claim C4: removing one of the two available units of item
(1,1) keeps the table nonnegative. -/
theorem c4_item_quantity_nonnegative_witness :
    itemsNonneg (pdbUpdateUnitsRemove c4Items 7 ⟨1, 1⟩ 1).2 :=
  c4_item_quantity_nonnegative.2 c4Items 7 ⟨1, 1⟩ 1
    (by show ∀ e ∈ c4Items, 0 ≤ e.2.quantity
        decide)

/-- C10: in both servers, every entry of every active and every saved cart
carries quantity at least 1 after any sequence of operations from the
initial state: removals that reach zero delete the entry, adds require a
positive quantity, and saves filter non-positive entries. -/
theorem c10_cart_quantities_positive :
    (∀ ops : List MOp,
      cartsPosM (runM ops initMarket).carts ∧
      cartsPosM (runM ops initMarket).saved_carts) ∧
    (∀ (timeout : Int) (ops : List COp),
      cartsPosM (runC ops (CustomerDB.init timeout)).session_carts ∧
      cartsPosM (runC ops (CustomerDB.init timeout)).saved_carts) := by
  constructor
  · intro ops
    have h := runM_MInv ops initMarket initMarket_MInv
    exact ⟨h.2.1, h.2.2.1⟩
  · intro timeout ops
    refine runC_CInv ops _ ?_
    constructor <;> intro c hc <;> simp [CustomerDB.init] at hc

/-- Consolidated state for the C6 counterexample: buyer 1 holds the two
concurrent sessions 1 and 2, and item (1,1) has five units in stock. -/
def c6Market : Market :=
  { initMarket with
    sessions := [(1, ⟨1, .buyer, 0⟩), (2, ⟨1, .buyer, 0⟩)],
    items :=
      [(⟨1, 1⟩,
        { item_id := ⟨1, 1⟩, seller_id := 1, name := [120], category := 1,
          keywords := [], condition := .new, sale_price := 5, quantity := 5,
          feedback := ⟨0, 0⟩, created_at := 0 })] }

/-- Counterexample for claim C6: in the consolidated server carts are keyed
by buyer id, so after adding two units through session 1, session 2 of the
same buyer observes the mutated cart rather than an unchanged one. -/
theorem c6_gateway_shared_cart_counterexample :
    gwDisplayCart c6Market 2 = .ok [] ∧
    gwDisplayCart (gwAddToCart c6Market 1 ⟨1, 1⟩ 2).2 2 = .ok [(⟨1, 1⟩, 2)] := by
  decide

/-- Consolidated state for the C8 counterexample: buyers 1 and 2 share the
name "b" but have different passwords. -/
def c8Market : Market :=
  { initMarket with
    buyers :=
      [(1, { buyer_id := 1, name := [98], items_purchased := 0,
             password_hash := [112, 49], created_at := 0 }),
       (2, { buyer_id := 2, name := [98], items_purchased := 0,
             password_hash := [112, 50], created_at := 0 })],
    buyers_by_name := [([98], [1, 2])] }

/-- Counterexample for claim C8: the consolidated login-by-name rejects a
shared name as ambiguous before checking any password, while the backend
CustomerDB resolves the same situation to the unique credential match. -/
theorem c8_gateway_ambiguous_before_password_counterexample :
    (gwLoginBuyerName c8Market [98] [112, 49] 7 0).1 = .error .ambiguousName ∧
    (cdbLogin c8Db .buyer (.uname [98]) [112, 49] 7 0).1 = .ok (1, 7) := by
  decide

/-- JSON values exchanged by `common/protocol.py`.  Strings are lists of
Unicode code points; numbers are the integers the handlers actually put in
request and response objects (Python ints serialize exactly). -/
inductive Json
  | null
  | bool (b : Bool)
  | num (i : Int)
  | str (s : List Nat)
  | arr (vs : List Json)
  | obj (ms : List (List Nat × Json))

/-- Lower-case hex digit, as produced by Python's `\uXXXX` escapes. -/
def hexDigit (n : Nat) : Nat := if n < 10 then 48 + n else 87 + n

/-- Value of one hex digit accepted by the decoder. -/
def hexVal (c : Nat) : Option Nat :=
  if 48 ≤ c ∧ c ≤ 57 then some (c - 48)
  else if 97 ≤ c ∧ c ≤ 102 then some (c - 87)
  else if 65 ≤ c ∧ c ≤ 70 then some (c - 55)
  else none

/-- UTF-8 encoding of one code point (`str.encode("utf-8")`). -/
def utf8 (c : Nat) : List Nat :=
  if c < 0x80 then [c]
  else if c < 0x800 then [0xC0 + c / 0x40, 0x80 + c % 0x40]
  else if c < 0x10000 then
    [0xE0 + c / 0x1000, 0x80 + c / 0x40 % 0x40, 0x80 + c % 0x40]
  else
    [0xF0 + c / 0x40000, 0x80 + c / 0x1000 % 0x40, 0x80 + c / 0x40 % 0x40,
     0x80 + c % 0x40]

/-- Bytes emitted for one string character by `json.dumps` with
`ensure_ascii=False`: escape the quote, the backslash and control
characters (short escapes for \b \t \n \f \r, `\u00XX` otherwise), and emit
everything else as literal UTF-8. -/
def escChar (c : Nat) : List Nat :=
  if c = 34 then [92, 34]
  else if c = 92 then [92, 92]
  else if c < 32 then
    if c = 8 then [92, 98]
    else if c = 9 then [92, 116]
    else if c = 10 then [92, 110]
    else if c = 12 then [92, 102]
    else if c = 13 then [92, 114]
    else [92, 117, 48, 48, hexDigit (c / 16), hexDigit (c % 16)]
  else utf8 c

/-- Escaped body of a serialized string. -/
def escStr : List Nat → List Nat
  | [] => []
  | c :: cs => escChar c ++ escStr cs

/-- Serialized JSON string, quotes included. -/
def strSer (s : List Nat) : List Nat := 34 :: (escStr s ++ [34])

/-- Decimal digits of a natural number, most significant first (the fuel
argument only forces termination; `n + 1` is always enough). -/
def natDigitsF : Nat → Nat → List Nat
  | 0, _ => []
  | fuel + 1, n => if n < 10 then [48 + n] else natDigitsF fuel (n / 10) ++ [48 + n % 10]

/-- Decimal representation of a natural number. -/
def natDigits (n : Nat) : List Nat := natDigitsF (n + 1) n

/-- Serialized JSON integer. -/
def intSer (i : Int) : List Nat :=
  if i < 0 then 45 :: natDigits i.natAbs else natDigits i.toNat

mutual
/-- UTF-8 bytes of `json.dumps(v, separators=(",", ":"), ensure_ascii=False)`. -/
def jser : Json → List Nat
  | .null => [110, 117, 108, 108]
  | .bool true => [116, 114, 117, 101]
  | .bool false => [102, 97, 108, 115, 101]
  | .num i => intSer i
  | .str s => strSer s
  | .arr [] => [91, 93]
  | .arr (v :: vs) => 91 :: (jser v ++ jserElems vs)
  | .obj [] => [123, 125]
  | .obj ((k, v) :: ms) => 123 :: (strSer k ++ (58 :: (jser v ++ jserMems ms)))

/-- Remaining array elements, each preceded by a comma, then `]`. -/
def jserElems : List Json → List Nat
  | [] => [93]
  | v :: vs => 44 :: (jser v ++ jserElems vs)

/-- Remaining object members, each preceded by a comma, then `}`. -/
def jserMems : List (List Nat × Json) → List Nat
  | [] => [125]
  | (k, v) :: ms => 44 :: (strSer k ++ (58 :: (jser v ++ jserMems ms)))
end

/-- ASCII decimal digit test. -/
def isDigit (c : Nat) : Bool := decide (48 ≤ c ∧ c ≤ 57)

/-- UTF-8 continuation byte test. -/
def isCont (c : Nat) : Bool := decide (0x80 ≤ c ∧ c < 0xC0)

/-- Maximal run of decimal digits, folded onto an accumulator. -/
def pDigits (acc : Nat) : List Nat → Nat × List Nat
  | [] => (acc, [])
  | c :: cs => if isDigit c then pDigits (acc * 10 + (c - 48)) cs else (acc, c :: cs)

/-- String-body decoder (called after the opening quote): unescape and
UTF-8-decode until the closing quote.  Fuel one greater than the number of
decoded characters suffices: every step consumes at least one byte. -/
def pStrAux : Nat → List Nat → Option (List Nat × List Nat)
  | 0, _ => none
  | _ + 1, [] => none
  | fuel + 1, c :: cs =>
    if c = 34 then some ([], cs)
    else if c = 92 then
      match cs with
      | [] => none
      | e :: es =>
        if e = 34 then (pStrAux fuel es).map (fun p => (34 :: p.1, p.2))
        else if e = 92 then (pStrAux fuel es).map (fun p => (92 :: p.1, p.2))
        else if e = 47 then (pStrAux fuel es).map (fun p => (47 :: p.1, p.2))
        else if e = 98 then (pStrAux fuel es).map (fun p => (8 :: p.1, p.2))
        else if e = 116 then (pStrAux fuel es).map (fun p => (9 :: p.1, p.2))
        else if e = 110 then (pStrAux fuel es).map (fun p => (10 :: p.1, p.2))
        else if e = 102 then (pStrAux fuel es).map (fun p => (12 :: p.1, p.2))
        else if e = 114 then (pStrAux fuel es).map (fun p => (13 :: p.1, p.2))
        else if e = 117 then
          match es with
          | h1 :: h2 :: h3 :: h4 :: es2 =>
            match hexVal h1, hexVal h2, hexVal h3, hexVal h4 with
            | some a, some b, some c2, some d =>
              (pStrAux fuel es2).map
                (fun p => ((((a * 16 + b) * 16 + c2) * 16 + d) :: p.1, p.2))
            | _, _, _, _ => none
          | _ => none
        else none
    else if c < 0x80 then (pStrAux fuel cs).map (fun p => (c :: p.1, p.2))
    else if c < 0xC0 then none
    else if c < 0xE0 then
      match cs with
      | c1 :: cs1 =>
        if isCont c1 then
          (pStrAux fuel cs1).map
            (fun p => (((c - 0xC0) * 0x40 + (c1 - 0x80)) :: p.1, p.2))
        else none
      | [] => none
    else if c < 0xF0 then
      match cs with
      | c1 :: c2 :: cs1 =>
        if isCont c1 ∧ isCont c2 then
          (pStrAux fuel cs1).map
            (fun p =>
              ((((c - 0xE0) * 0x40 + (c1 - 0x80)) * 0x40 + (c2 - 0x80)) :: p.1,
               p.2))
        else none
      | _ => none
    else if c < 0xF8 then
      match cs with
      | c1 :: c2 :: c3 :: cs1 =>
        if isCont c1 ∧ isCont c2 ∧ isCont c3 then
          (pStrAux fuel cs1).map
            (fun p =>
              (((((c - 0xF0) * 0x40 + (c1 - 0x80)) * 0x40 + (c2 - 0x80)) * 0x40 +
                  (c3 - 0x80)) :: p.1,
               p.2))
        else none
      | _ => none
    else none

/-- Decode a quoted JSON string, opening quote included. -/
def pKey : List Nat → Option (List Nat × List Nat)
  | [] => none
  | c :: cs => if c = 34 then pStrAux cs.length cs else none

mutual
/-- Fuel-indexed decoder for the canonical texts produced by `jser` (the
relevant fragment of `json.loads`).  Fuel bounds the nesting recursion; the
input length plus one is always enough. -/
def jparse : Nat → List Nat → Option (Json × List Nat)
  | 0, _ => none
  | _ + 1, [] => none
  | fuel + 1, c :: cs =>
    if c = 110 then
      match cs with
      | 117 :: 108 :: 108 :: r => some (.null, r)
      | _ => none
    else if c = 116 then
      match cs with
      | 114 :: 117 :: 101 :: r => some (.bool true, r)
      | _ => none
    else if c = 102 then
      match cs with
      | 97 :: 108 :: 115 :: 101 :: r => some (.bool false, r)
      | _ => none
    else if c = 34 then
      match pStrAux cs.length cs with
      | some (s, r) => some (.str s, r)
      | none => none
    else if c = 91 then
      match cs with
      | [] => none
      | d :: ds =>
        if d = 93 then some (.arr [], ds)
        else
          match jparse fuel (d :: ds) with
          | some (v, r) => (jparseElems fuel r).map (fun p => (.arr (v :: p.1), p.2))
          | none => none
    else if c = 123 then
      match cs with
      | [] => none
      | d :: ds =>
        if d = 125 then some (.obj [], ds)
        else
          match pKey (d :: ds) with
          | some (k, r1) =>
            match r1 with
            | 58 :: r2 =>
              match jparse fuel r2 with
              | some (v, r3) =>
                (jparseMems fuel r3).map (fun p => (.obj ((k, v) :: p.1), p.2))
              | none => none
            | _ => none
          | none => none
    else if c = 45 then
      match cs with
      | [] => none
      | d :: ds =>
        if isDigit d then
          let p := pDigits (d - 48) ds
          some (.num (-(p.1 : Int)), p.2)
        else none
    else if isDigit c then
      let p := pDigits (c - 48) cs
      some (.num (p.1 : Int), p.2)
    else none

/-- Elements after the first one inside `[...]`: a comma then a value,
repeatedly, then `]`. -/
def jparseElems : Nat → List Nat → Option (List Json × List Nat)
  | 0, _ => none
  | _ + 1, [] => none
  | fuel + 1, c :: cs =>
    if c = 93 then some ([], cs)
    else if c = 44 then
      match jparse fuel cs with
      | some (v, r) => (jparseElems fuel r).map (fun p => (v :: p.1, p.2))
      | none => none
    else none

/-- Members after the first one inside an object: a comma then
`"key":value`, repeatedly, then `}`. -/
def jparseMems : Nat → List Nat → Option (List (List Nat × Json) × List Nat)
  | 0, _ => none
  | _ + 1, [] => none
  | fuel + 1, c :: cs =>
    if c = 125 then some ([], cs)
    else if c = 44 then
      match pKey cs with
      | some (k, r1) =>
        match r1 with
        | 58 :: r2 =>
          match jparse fuel r2 with
          | some (v, r3) => (jparseMems fuel r3).map (fun p => ((k, v) :: p.1, p.2))
          | none => none
        | _ => none
      | none => none
    else none
end

/-- Decode one JSON value from a byte list (`json.loads` on the canonical
texts; fuel `length + 1` always suffices for them). -/
def jdecode (bs : List Nat) : Option (Json × List Nat) :=
  jparse (bs.length + 1) bs

/-- Default `max_bytes` of `read_message`: 4 MiB. -/
def MAX_BYTES : Nat := 4 * 1024 * 1024

/-- Big-endian 4-byte length prefix, `struct.Struct(">I").pack`. -/
def be32 (n : Nat) : List Nat :=
  [n / 0x1000000 % 256, n / 0x10000 % 256, n / 0x100 % 256, n % 256]

/-- Read the 4-byte big-endian header, `struct.Struct(">I").unpack`. -/
def readBE32 : List Nat → Option (Nat × List Nat)
  | b0 :: b1 :: b2 :: b3 :: r => some (((b0 * 256 + b1) * 256 + b2) * 256 + b3, r)
  | _ => none

/-- `encode_message`: length-prefixed UTF-8 JSON of a top-level object
(`struct.pack(">I", ...)` raises once the payload reaches 2^32 bytes). -/
def encodeMessage (ms : List (List Nat × Json)) : Option (List Nat) :=
  let payload := jser (.obj ms)
  if payload.length < 2 ^ 32 then some (be32 payload.length ++ payload) else none

/-- `read_message` on a byte stream: read the header, reject empty or
oversized payloads, decode the payload as JSON requiring it to be consumed
exactly, and require a top-level object.  Returns the object and the
unread remainder of the stream. -/
def readMessage (maxBytes : Nat) (bs : List Nat) :
    Option (List (List Nat × Json) × List Nat) :=
  match readBE32 bs with
  | none => none
  | some (n, r) =>
    if n = 0 ∨ maxBytes < n then none
    else if r.length < n then none
    else
      match jdecode (r.take n) with
      | some (.obj ms, []) => some (ms, r.drop n)
      | _ => none

/-- Unicode scalar values: the code points Python can UTF-8-encode. -/
def validScalar (c : Nat) : Bool :=
  decide (c < 0xD800 ∨ (0xE000 ≤ c ∧ c < 0x110000))

mutual
/-- Well-formed JSON values: every string is made of Unicode scalar
values. -/
def jwf : Json → Bool
  | .null => true
  | .bool _ => true
  | .num _ => true
  | .str s => s.all validScalar
  | .arr vs => jwfElems vs
  | .obj ms => jwfMems ms

/-- Well-formedness of a list of array elements. -/
def jwfElems : List Json → Bool
  | [] => true
  | v :: vs => jwf v && jwfElems vs

/-- Well-formedness of a list of object members. -/
def jwfMems : List (List Nat × Json) → Bool
  | [] => true
  | (k, v) :: ms => k.all validScalar && jwf v && jwfMems ms
end

/-- True when the input does not continue with a digit (so a maximal digit
run ending here is parsed back unchanged). -/
def headStop : List Nat → Bool
  | [] => true
  | c :: _ => !isDigit c

theorem escChar_length_pos (c : Nat) : 1 ≤ (escChar c).length := by
  unfold escChar utf8
  repeat' split
  all_goals simp

theorem escStr_length (s : List Nat) : s.length ≤ (escStr s).length := by
  induction s with
  | nil => simp [escStr]
  | cons c s ih =>
    have := escChar_length_pos c
    simp only [escStr, List.length_append, List.length_cons]
    omega

theorem hexVal_hexDigit {x : Nat} (h : x < 16) : hexVal (hexDigit x) = some x := by
  interval_cases x <;> rfl

theorem pStr_step (c : Nat) (hc : validScalar c = true) (k : Nat) (t : List Nat) :
    pStrAux (k + 1) (escChar c ++ t) = (pStrAux k t).map (fun p => (c :: p.1, p.2)) := by
  have hc' : c < 0xD800 ∨ (0xE000 ≤ c ∧ c < 0x110000) := by
    simpa [validScalar] using hc
  by_cases h34 : c = 34
  · subst h34
    rfl
  by_cases h92 : c = 92
  · subst h92
    rfl
  by_cases hctl : c < 32
  · by_cases h8 : c = 8
    · subst h8; rfl
    by_cases h9 : c = 9
    · subst h9; rfl
    by_cases h10 : c = 10
    · subst h10; rfl
    by_cases h12 : c = 12
    · subst h12; rfl
    by_cases h13 : c = 13
    · subst h13; rfl
    have he : escChar c = [92, 117, 48, 48, hexDigit (c / 16), hexDigit (c % 16)] := by
      unfold escChar
      rw [if_neg h34, if_neg h92, if_pos hctl, if_neg h8, if_neg h9, if_neg h10,
        if_neg h12, if_neg h13]
    rw [he]
    have e48 : hexVal 48 = some 0 := rfl
    simp [pStrAux, e48, hexVal_hexDigit (show c / 16 < 16 by omega),
      hexVal_hexDigit (show c % 16 < 16 by omega)]
    simp only [show c / 16 * 16 + c % 16 = c from by omega]
  · have hge : 32 ≤ c := by omega
    by_cases h1 : c < 0x80
    · have he : escChar c = [c] := by
        unfold escChar utf8
        rw [if_neg h34, if_neg h92, if_neg hctl, if_pos h1]
      rw [he]
      simp only [List.cons_append, List.nil_append, pStrAux]
      rw [if_neg h34, if_neg h92, if_pos h1]
      rfl
    · by_cases h2 : c < 0x800
      · have he : escChar c = [0xC0 + c / 0x40, 0x80 + c % 0x40] := by
          unfold escChar utf8
          rw [if_neg h34, if_neg h92, if_neg hctl, if_neg h1, if_pos h2]
        rw [he]
        simp only [List.cons_append, List.nil_append, pStrAux]
        rw [if_neg (by omega : ¬(0xC0 + c / 0x40) = 34),
          if_neg (by omega : ¬(0xC0 + c / 0x40) = 92),
          if_neg (by omega : ¬(0xC0 + c / 0x40) < 0x80),
          if_neg (by omega : ¬(0xC0 + c / 0x40) < 0xC0),
          if_pos (by omega : (0xC0 + c / 0x40) < 0xE0)]
        simp only [List.append_eq, List.singleton_append, List.cons_append]
        have hcont1 : isCont (0x80 + c % 0x40) = true := by
          simp only [isCont, decide_eq_true_eq]
          omega
        rw [if_pos hcont1]
        simp only [List.append_eq, List.nil_append]
        simp
        simp only [show c / 64 * 64 + c % 64 = c from by omega]
      · by_cases h3 : c < 0x10000
        · have he : escChar c =
              [0xE0 + c / 0x1000, 0x80 + c / 0x40 % 0x40, 0x80 + c % 0x40] := by
            unfold escChar utf8
            rw [if_neg h34, if_neg h92, if_neg hctl, if_neg h1, if_neg h2, if_pos h3]
          rw [he]
          simp only [List.cons_append, List.nil_append, pStrAux]
          rw [if_neg (by omega : ¬(0xE0 + c / 0x1000) = 34),
            if_neg (by omega : ¬(0xE0 + c / 0x1000) = 92),
            if_neg (by omega : ¬(0xE0 + c / 0x1000) < 0x80),
            if_neg (by omega : ¬(0xE0 + c / 0x1000) < 0xC0),
            if_neg (by omega : ¬(0xE0 + c / 0x1000) < 0xE0),
            if_pos (by omega : (0xE0 + c / 0x1000) < 0xF0)]
          simp only [List.append_eq, List.singleton_append, List.cons_append]
          have hcont1 : isCont (0x80 + c / 0x40 % 0x40) = true := by
            simp only [isCont, decide_eq_true_eq]
            omega
          have hcont2 : isCont (0x80 + c % 0x40) = true := by
            simp only [isCont, decide_eq_true_eq]
            omega
          rw [if_pos (And.intro hcont1 hcont2)]
          simp only [List.append_eq, List.nil_append]
          simp
          simp only [show (c / 4096 * 64 + c / 64 % 64) * 64 + c % 64 = c from by omega]
        · have h4 : c < 0x110000 := by omega
          have he : escChar c =
              [0xF0 + c / 0x40000, 0x80 + c / 0x1000 % 0x40, 0x80 + c / 0x40 % 0x40,
               0x80 + c % 0x40] := by
            unfold escChar utf8
            rw [if_neg h34, if_neg h92, if_neg hctl, if_neg h1, if_neg h2, if_neg h3]
          rw [he]
          simp only [List.cons_append, List.nil_append, pStrAux]
          rw [if_neg (by omega : ¬(0xF0 + c / 0x40000) = 34),
            if_neg (by omega : ¬(0xF0 + c / 0x40000) = 92),
            if_neg (by omega : ¬(0xF0 + c / 0x40000) < 0x80),
            if_neg (by omega : ¬(0xF0 + c / 0x40000) < 0xC0),
            if_neg (by omega : ¬(0xF0 + c / 0x40000) < 0xE0),
            if_neg (by omega : ¬(0xF0 + c / 0x40000) < 0xF0),
            if_pos (by omega : (0xF0 + c / 0x40000) < 0xF8)]
          simp only [List.append_eq, List.singleton_append, List.cons_append]
          have hcont1 : isCont (0x80 + c / 0x1000 % 0x40) = true := by
            simp only [isCont, decide_eq_true_eq]
            omega
          have hcont2 : isCont (0x80 + c / 0x40 % 0x40) = true := by
            simp only [isCont, decide_eq_true_eq]
            omega
          have hcont3 : isCont (0x80 + c % 0x40) = true := by
            simp only [isCont, decide_eq_true_eq]
            omega
          rw [if_pos (And.intro hcont1 (And.intro hcont2 hcont3))]
          simp only [List.append_eq, List.nil_append]
          simp
          simp only [show ((c / 262144 * 64 + c / 4096 % 64) * 64 + c / 64 % 64) * 64 +
            c % 64 = c from by omega]

theorem pStrAux_rt (s : List Nat) (hs : s.all validScalar = true) :
    ∀ fuel, s.length < fuel → ∀ rest,
      pStrAux fuel (escStr s ++ (34 :: rest)) = some (s, rest) := by
  induction s with
  | nil =>
    intro fuel hf rest
    obtain ⟨k, rfl⟩ : ∃ k, fuel = k + 1 := ⟨fuel - 1, by omega⟩
    rfl
  | cons c s ih =>
    intro fuel hf rest
    obtain ⟨k, rfl⟩ : ∃ k, fuel = k + 1 := ⟨fuel - 1, by omega⟩
    simp only [List.all_cons, Bool.and_eq_true] at hs
    have hsplit : escStr (c :: s) ++ (34 :: rest) = escChar c ++ (escStr s ++ (34 :: rest)) := by
      simp [escStr, List.append_assoc]
    rw [hsplit, pStr_step c hs.1 k _,
      ih hs.2 k (by simpa using Nat.lt_of_succ_lt_succ hf) rest]
    rfl

theorem pStr_full (s : List Nat) (hs : s.all validScalar = true) (rest : List Nat) :
    pStrAux (escStr s ++ (34 :: rest)).length (escStr s ++ (34 :: rest)) = some (s, rest) := by
  apply pStrAux_rt s hs
  have h := escStr_length s
  simp only [List.length_append, List.length_cons]
  omega

theorem natDigitsF_digits : ∀ fuel n, ∀ d ∈ natDigitsF fuel n, isDigit d = true := by
  intro fuel
  induction fuel with
  | zero => intro n d hd; simp [natDigitsF] at hd
  | succ fuel ih =>
    intro n d hd
    by_cases h : n < 10
    · simp only [natDigitsF, if_pos h, List.mem_singleton] at hd
      subst hd
      simp only [isDigit, decide_eq_true_eq]
      omega
    · simp only [natDigitsF, if_neg h, List.mem_append, List.mem_singleton] at hd
      rcases hd with hd | hd
      · exact ih (n / 10) d hd
      · subst hd
        simp only [isDigit, decide_eq_true_eq]
        omega

theorem natDigitsF_ne_nil : ∀ fuel n, 0 < fuel → natDigitsF fuel n ≠ [] := by
  intro fuel n hf
  obtain ⟨k, rfl⟩ : ∃ k, fuel = k + 1 := ⟨fuel - 1, by omega⟩
  by_cases h : n < 10
  · simp [natDigitsF, h]
  · simp [natDigitsF, h]

theorem natDigitsF_foldl : ∀ fuel n, n ≤ fuel → ∀ a,
    (natDigitsF fuel n).foldl (fun x d => x * 10 + (d - 48)) a =
      a * 10 ^ (natDigitsF fuel n).length + n := by
  intro fuel
  induction fuel with
  | zero =>
    intro n hn a
    have hz : n = 0 := by omega
    subst hz
    simp [natDigitsF]
  | succ fuel ih =>
    intro n hn a
    by_cases h : n < 10
    · simp only [natDigitsF, if_pos h, List.foldl_cons, List.foldl_nil,
        List.length_singleton, pow_one]
      omega
    · simp only [natDigitsF, if_neg h, List.foldl_append, List.foldl_cons,
        List.foldl_nil, List.length_append, List.length_singleton]
      rw [ih (n / 10) (by omega)]
      rw [pow_succ, ← mul_assoc]
      generalize a * 10 ^ (natDigitsF fuel (n / 10)).length = b
      omega

theorem natDigits_foldl (n : Nat) :
    (natDigits n).foldl (fun x d => x * 10 + (d - 48)) 0 = n := by
  have h := natDigitsF_foldl (n + 1) n (by omega) 0
  simpa [natDigits] using h

theorem pDigits_append (ds : List Nat) (h : ∀ d ∈ ds, isDigit d = true) :
    ∀ acc rest, headStop rest = true →
      pDigits acc (ds ++ rest) = (ds.foldl (fun x d => x * 10 + (d - 48)) acc, rest) := by
  induction ds with
  | nil =>
    intro acc rest hr
    cases rest with
    | nil => rfl
    | cons c cs =>
      simp only [headStop, Bool.not_eq_true'] at hr
      simp only [List.nil_append, List.foldl_nil, pDigits]
      rw [if_neg (by simp [hr])]
  | cons d ds ih =>
    intro acc rest hr
    have hd : isDigit d = true := h d (by simp)
    simp only [List.cons_append, pDigits, List.foldl_cons]
    rw [if_pos hd]
    exact ih (fun x hx => h x (by simp [hx])) _ rest hr

theorem jserElems_length_pos (vs : List Json) : 1 ≤ (jserElems vs).length := by
  cases vs <;> simp [jserElems]

theorem jserMems_length_pos (ms : List (List Nat × Json)) : 1 ≤ (jserMems ms).length := by
  cases ms with
  | nil => simp [jserMems]
  | cons m ms => obtain ⟨k, v⟩ := m; simp [jserMems]

theorem jser_length_pos (v : Json) : 1 ≤ (jser v).length := by
  cases v with
  | null => simp [jser]
  | bool b => cases b <;> simp [jser]
  | num i =>
    simp only [jser, intSer]
    by_cases h : i < 0
    · rw [if_pos h]; simp
    · rw [if_neg h]
      have := natDigitsF_ne_nil (i.toNat + 1) i.toNat (by omega)
      simp only [natDigits]
      cases hnd : natDigitsF (i.toNat + 1) i.toNat with
      | nil => exact absurd hnd this
      | cons d ds => simp
  | str s => simp [jser, strSer]
  | arr vs => cases vs <;> simp [jser]
  | obj ms =>
    cases ms with
    | nil => simp [jser]
    | cons m ms => obtain ⟨k, v⟩ := m; simp [jser]

theorem jser_head_ne (v : Json) : ∃ d ds, jser v = d :: ds ∧ d ≠ 93 := by
  cases v with
  | null => exact ⟨110, _, rfl, by omega⟩
  | bool b =>
    cases b with
    | false => exact ⟨102, _, rfl, by omega⟩
    | true => exact ⟨116, _, rfl, by omega⟩
  | num i =>
    by_cases h : i < 0
    · refine ⟨45, natDigits i.natAbs, ?_, by omega⟩
      simp [jser, intSer, h]
    · obtain ⟨d, ds, hd⟩ :=
        List.exists_cons_of_ne_nil (natDigitsF_ne_nil (i.toNat + 1) i.toNat (by omega))
      have hdig : isDigit d = true := natDigitsF_digits _ _ d (by rw [hd]; simp)
      refine ⟨d, ds, ?_, ?_⟩
      · simp [jser, intSer, h, natDigits, hd]
      · simp only [isDigit, decide_eq_true_eq] at hdig
        omega
  | str s => exact ⟨34, _, rfl, by omega⟩
  | arr vs =>
    cases vs with
    | nil => exact ⟨91, _, rfl, by omega⟩
    | cons v vs => exact ⟨91, _, rfl, by omega⟩
  | obj ms =>
    cases ms with
    | nil => exact ⟨123, _, rfl, by omega⟩
    | cons m ms => obtain ⟨k, v⟩ := m; exact ⟨123, _, rfl, by omega⟩

theorem headStop_jserElems (vs : List Json) (rest : List Nat) :
    headStop (jserElems vs ++ rest) = true := by
  cases vs <;> simp [jserElems, headStop, isDigit]

theorem headStop_jserMems (ms : List (List Nat × Json)) (rest : List Nat) :
    headStop (jserMems ms ++ rest) = true := by
  cases ms with
  | nil => simp [jserMems, headStop, isDigit]
  | cons m ms => obtain ⟨k, v⟩ := m; simp [jserMems, headStop, isDigit]

/-- Structural induction for the nested inductive `Json`. -/
def Json.strongInd (motive : Json → Prop)
    (hnull : motive .null) (hbool : ∀ b, motive (.bool b))
    (hnum : ∀ i, motive (.num i)) (hstr : ∀ s, motive (.str s))
    (harr : ∀ vs, (∀ v ∈ vs, motive v) → motive (.arr vs))
    (hobj : ∀ ms, (∀ kv ∈ ms, motive kv.2) → motive (.obj ms)) : ∀ v, motive v
  | .null => hnull
  | .bool b => hbool b
  | .num i => hnum i
  | .str s => hstr s
  | .arr vs =>
    harr vs (fun v hv => Json.strongInd motive hnull hbool hnum hstr harr hobj v)
  | .obj ms =>
    hobj ms (fun kv hkv => Json.strongInd motive hnull hbool hnum hstr harr hobj kv.2)
termination_by v => sizeOf v
decreasing_by
  all_goals simp only [Json.arr.sizeOf_spec, Json.obj.sizeOf_spec]
  · have := List.sizeOf_lt_of_mem hv
    omega
  · have h1 := List.sizeOf_lt_of_mem hkv
    have h2 : sizeOf kv.2 < sizeOf kv := by
      obtain ⟨a, b⟩ := kv
      simp
    omega

/-- Roundtrip property of one JSON value: its serialization followed by
any non-digit remainder parses back to exactly the value and that
remainder, for any fuel above the serialized length. -/
def JRT (v : Json) : Prop :=
  jwf v = true → ∀ fuel rest, (jser v).length < fuel → headStop rest = true →
    jparse fuel (jser v ++ rest) = some (v, rest)

theorem jparseElems_rt (vs : List Json) (hvs : ∀ v ∈ vs, JRT v)
    (hwf : jwfElems vs = true) :
    ∀ fuel rest, (jserElems vs).length < fuel → headStop rest = true →
      jparseElems fuel (jserElems vs ++ rest) = some (vs, rest) := by
  induction vs with
  | nil =>
    intro fuel rest hf hr
    obtain ⟨k, rfl⟩ : ∃ k, fuel = k + 1 := ⟨fuel - 1, by omega⟩
    rfl
  | cons v vs ih =>
    intro fuel rest hf hr
    obtain ⟨k, rfl⟩ : ∃ k, fuel = k + 1 := ⟨fuel - 1, by omega⟩
    simp only [jwfElems, Bool.and_eq_true] at hwf
    have hv : JRT v := hvs v (by simp)
    have hlen1 := jser_length_pos v
    have hlen2 := jserElems_length_pos vs
    have hflen : (jserElems (v :: vs)).length =
        1 + ((jser v).length + (jserElems vs).length) := by
      simp [jserElems]
      omega
    rw [hflen] at hf
    simp only [jserElems, List.cons_append, List.append_assoc]
    simp only [jparseElems]
    rw [if_neg (show ¬(44 : Nat) = 93 by omega)]
    rw [if_pos trivial]
    rw [hv hwf.1 k (jserElems vs ++ rest) (by omega) (headStop_jserElems vs rest)]
    simp only []
    rw [ih (fun w hw => hvs w (by simp [hw])) hwf.2 k rest (by omega) hr]
    rfl

theorem jparseMems_rt (ms : List (List Nat × Json)) (hvs : ∀ kv ∈ ms, JRT kv.2)
    (hwf : jwfMems ms = true) :
    ∀ fuel rest, (jserMems ms).length < fuel → headStop rest = true →
      jparseMems fuel (jserMems ms ++ rest) = some (ms, rest) := by
  induction ms with
  | nil =>
    intro fuel rest hf hr
    obtain ⟨k, rfl⟩ : ∃ k, fuel = k + 1 := ⟨fuel - 1, by omega⟩
    rfl
  | cons m ms ih =>
    obtain ⟨k0, v⟩ := m
    intro fuel rest hf hr
    obtain ⟨k, rfl⟩ : ∃ k, fuel = k + 1 := ⟨fuel - 1, by omega⟩
    simp only [jwfMems, Bool.and_eq_true] at hwf
    obtain ⟨⟨hk, hv1⟩, hms⟩ := hwf
    have hv : JRT v := hvs (k0, v) (by simp)
    have hlen1 := jser_length_pos v
    have hlen2 := jserMems_length_pos ms
    have hbound : (jser v).length + (jserMems ms).length + 2 ≤
        (jserMems ((k0, v) :: ms)).length := by
      simp [jserMems, strSer]
      omega
    simp only [jserMems, List.cons_append, List.append_assoc]
    simp only [jparseMems]
    rw [if_neg (show ¬(44 : Nat) = 125 by omega)]
    rw [if_pos trivial]
    simp only [strSer, List.cons_append, List.append_assoc, List.singleton_append,
      List.nil_append]
    simp only [pKey]
    rw [if_pos trivial]
    rw [pStr_full k0 hk (58 :: (jser v ++ (jserMems ms ++ rest)))]
    simp only []
    rw [hv hv1 k (jserMems ms ++ rest) (by omega) (headStop_jserMems ms rest)]
    simp only []
    rw [ih (fun w hw => hvs w (by simp [hw])) hms k rest (by omega) hr]
    rfl

theorem jparse_jser : ∀ v : Json, JRT v := by
  intro v
  induction v using Json.strongInd with
  | hnull =>
    intro _ fuel rest hf hr
    obtain ⟨k, rfl⟩ : ∃ k, fuel = k + 1 := ⟨fuel - 1, by omega⟩
    rfl
  | hbool b =>
    cases b with
    | false =>
      intro _ fuel rest hf hr
      obtain ⟨k, rfl⟩ : ∃ k, fuel = k + 1 := ⟨fuel - 1, by omega⟩
      rfl
    | true =>
      intro _ fuel rest hf hr
      obtain ⟨k, rfl⟩ : ∃ k, fuel = k + 1 := ⟨fuel - 1, by omega⟩
      rfl
  | hnum i =>
    intro _ fuel rest hf hr
    obtain ⟨k, rfl⟩ : ∃ k, fuel = k + 1 := ⟨fuel - 1, by omega⟩
    by_cases h : i < 0
    · obtain ⟨d, ds, hd⟩ :=
        List.exists_cons_of_ne_nil (natDigitsF_ne_nil (i.natAbs + 1) i.natAbs (by omega))
      have hdig : isDigit d = true := natDigitsF_digits _ _ d (by rw [hd]; simp)
      have hdigs : ∀ x ∈ ds, isDigit x = true := by
        intro x hx
        exact natDigitsF_digits _ _ x (by rw [hd]; simp [hx])
      have hval : ds.foldl (fun x d2 => x * 10 + (d2 - 48)) (d - 48) = i.natAbs := by
        have h0 := natDigits_foldl i.natAbs
        unfold natDigits at h0
        rw [hd, List.foldl_cons] at h0
        simpa using h0
      simp only [jser, intSer, if_pos h, List.cons_append]
      simp only [jparse]
      rw [if_neg (show ¬(45 : Nat) = 110 by omega),
        if_neg (show ¬(45 : Nat) = 116 by omega),
        if_neg (show ¬(45 : Nat) = 102 by omega),
        if_neg (show ¬(45 : Nat) = 34 by omega),
        if_neg (show ¬(45 : Nat) = 91 by omega),
        if_neg (show ¬(45 : Nat) = 123 by omega)]
      rw [if_pos trivial]
      unfold natDigits
      rw [hd]
      simp only [List.cons_append]
      rw [if_pos hdig]
      rw [pDigits_append ds hdigs (d - 48) rest hr, hval]
      show some (Json.num (-(i.natAbs : Int)), rest) = some (Json.num i, rest)
      rw [show -(i.natAbs : Int) = i from by omega]
    · obtain ⟨d, ds, hd⟩ :=
        List.exists_cons_of_ne_nil (natDigitsF_ne_nil (i.toNat + 1) i.toNat (by omega))
      have hdig : isDigit d = true := natDigitsF_digits _ _ d (by rw [hd]; simp)
      have hd' : 48 ≤ d ∧ d ≤ 57 := by
        simpa [isDigit] using hdig
      have hdigs : ∀ x ∈ ds, isDigit x = true := by
        intro x hx
        exact natDigitsF_digits _ _ x (by rw [hd]; simp [hx])
      have hval : ds.foldl (fun x d2 => x * 10 + (d2 - 48)) (d - 48) = i.toNat := by
        have h0 := natDigits_foldl i.toNat
        unfold natDigits at h0
        rw [hd, List.foldl_cons] at h0
        simpa using h0
      simp only [jser, intSer, if_neg h]
      unfold natDigits
      rw [hd]
      simp only [List.cons_append]
      simp only [jparse]
      rw [if_neg (show ¬d = 110 by omega),
        if_neg (show ¬d = 116 by omega),
        if_neg (show ¬d = 102 by omega),
        if_neg (show ¬d = 34 by omega),
        if_neg (show ¬d = 91 by omega),
        if_neg (show ¬d = 123 by omega),
        if_neg (show ¬d = 45 by omega)]
      rw [if_pos hdig]
      rw [pDigits_append ds hdigs (d - 48) rest hr, hval]
      show some (Json.num ((i.toNat : Int)), rest) = some (Json.num i, rest)
      rw [show ((i.toNat : Int)) = i from by omega]
  | hstr s =>
    intro hwf fuel rest hf hr
    obtain ⟨k, rfl⟩ : ∃ k, fuel = k + 1 := ⟨fuel - 1, by omega⟩
    have hs : s.all validScalar = true := by simpa [jwf] using hwf
    simp only [jser, strSer, List.cons_append, List.append_assoc, List.singleton_append,
      List.nil_append]
    simp only [jparse]
    rw [if_neg (show ¬(34 : Nat) = 110 by omega),
      if_neg (show ¬(34 : Nat) = 116 by omega),
      if_neg (show ¬(34 : Nat) = 102 by omega)]
    rw [if_pos trivial]
    rw [pStr_full s hs rest]
  | harr vs ihv =>
    intro hwf fuel rest hf hr
    obtain ⟨k, rfl⟩ : ∃ k, fuel = k + 1 := ⟨fuel - 1, by omega⟩
    have hwfe : jwfElems vs = true := by simpa [jwf] using hwf
    cases vs with
    | nil => rfl
    | cons v vs =>
      have hv : JRT v := ihv v (by simp)
      simp only [jwfElems, Bool.and_eq_true] at hwfe
      have hlen1 := jser_length_pos v
      have hlen2 := jserElems_length_pos vs
      have hbound : (jser v).length + (jserElems vs).length + 1 ≤
          (jser (.arr (v :: vs))).length := by
        simp [jser]
      obtain ⟨d, ds, hd, hne⟩ := jser_head_ne v
      simp only [jser, List.cons_append, List.append_assoc]
      simp only [jparse]
      rw [if_neg (show ¬(91 : Nat) = 110 by omega),
        if_neg (show ¬(91 : Nat) = 116 by omega),
        if_neg (show ¬(91 : Nat) = 102 by omega),
        if_neg (show ¬(91 : Nat) = 34 by omega)]
      rw [if_pos trivial]
      rw [hd]
      simp only [List.cons_append]
      rw [if_neg hne]
      rw [← List.cons_append, ← hd]
      rw [hv hwfe.1 k (jserElems vs ++ rest) (by omega) (headStop_jserElems vs rest)]
      simp only []
      rw [jparseElems_rt vs (fun w hw => ihv w (by simp [hw])) hwfe.2 k rest (by omega) hr]
      rfl
  | hobj ms ihv =>
    intro hwf fuel rest hf hr
    obtain ⟨k, rfl⟩ : ∃ k, fuel = k + 1 := ⟨fuel - 1, by omega⟩
    have hwfm : jwfMems ms = true := by simpa [jwf] using hwf
    cases ms with
    | nil => rfl
    | cons m ms =>
      obtain ⟨k0, v⟩ := m
      simp only [jwfMems, Bool.and_eq_true] at hwfm
      obtain ⟨⟨hk, hv1⟩, hms⟩ := hwfm
      have hv : JRT v := ihv (k0, v) (by simp)
      have hlen1 := jser_length_pos v
      have hlen2 := jserMems_length_pos ms
      have hbound : (jser v).length + (jserMems ms).length + 2 ≤
          (jser (.obj ((k0, v) :: ms))).length := by
        simp [jser, strSer]
        omega
      simp only [jser, List.cons_append, List.append_assoc]
      simp only [jparse]
      rw [if_neg (show ¬(123 : Nat) = 110 by omega),
        if_neg (show ¬(123 : Nat) = 116 by omega),
        if_neg (show ¬(123 : Nat) = 102 by omega),
        if_neg (show ¬(123 : Nat) = 34 by omega),
        if_neg (show ¬(123 : Nat) = 91 by omega)]
      rw [if_pos trivial]
      simp only [strSer, List.cons_append, List.append_assoc, List.singleton_append,
        List.nil_append]
      rw [if_neg (show ¬(34 : Nat) = 125 by omega)]
      simp only [pKey]
      rw [if_pos trivial]
      rw [pStr_full k0 hk (58 :: (jser v ++ (jserMems ms ++ rest)))]
      simp only []
      rw [hv hv1 k (jserMems ms ++ rest) (by omega) (headStop_jserMems ms rest)]
      simp only []
      rw [jparseMems_rt ms (fun w hw => ihv w (by simp [hw])) hms k rest (by omega) hr]
      rfl

theorem jdecode_jser (v : Json) (h : jwf v = true) : jdecode (jser v) = some (v, []) := by
  unfold jdecode
  have hrt := jparse_jser v h ((jser v).length + 1) [] (by omega) rfl
  simpa using hrt

theorem readBE32_be32 (n : Nat) (h : n < 2 ^ 32) (t : List Nat) :
    readBE32 (be32 n ++ t) = some (n, t) := by
  simp only [be32, List.cons_append, List.nil_append, readBE32]
  rw [show ((n / 0x1000000 % 256 * 256 + n / 0x10000 % 256) * 256 + n / 0x100 % 256) * 256 +
    n % 256 = n from by omega]

/-- C7: decoding the bytes produced by `encode_message` — a 4-byte
big-endian length prefix followed by the compact UTF-8 JSON serialization
of a well-formed object — yields the object back and consumes exactly the
encoded bytes, for every well-formed object whose payload fits the
4 MiB `read_message` bound. -/
theorem c7_protocol_roundtrip (ms : List (List Nat × Json)) (bs rest : List Nat)
    (hwf : jwf (.obj ms) = true)
    (hlen : (jser (.obj ms)).length ≤ MAX_BYTES)
    (henc : encodeMessage ms = some bs) :
    readMessage MAX_BYTES (bs ++ rest) = some (ms, rest) := by
  have hmax : MAX_BYTES < 2 ^ 32 := by norm_num [MAX_BYTES]
  have hlt : (jser (.obj ms)).length < 2 ^ 32 := by omega
  have hpos := jser_length_pos (.obj ms)
  have hbs : bs = be32 (jser (.obj ms)).length ++ jser (.obj ms) := by
    unfold encodeMessage at henc
    rw [if_pos hlt] at henc
    exact (Option.some_inj.mp henc).symm
  subst hbs
  unfold readMessage
  rw [List.append_assoc, readBE32_be32 _ hlt]
  simp only []
  rw [if_neg (show ¬((jser (.obj ms)).length = 0 ∨
    MAX_BYTES < (jser (.obj ms)).length) by omega)]
  rw [if_neg (show ¬(jser (.obj ms) ++ rest).length < (jser (.obj ms)).length by
    simp only [List.length_append]
    omega)]
  have htake : (jser (.obj ms) ++ rest).take (jser (.obj ms)).length = jser (.obj ms) := by
    simp
  have hdrop : (jser (.obj ms) ++ rest).drop (jser (.obj ms)).length = rest := by
    simp
  rw [htake, hdrop, jdecode_jser _ hwf]

/-- Witness for claim C7: the object mapping "a" to 1 encodes to a 4-byte
header `00 00 00 07` plus the seven bytes of the text, and decodes back to
itself with the trailing stream untouched. -/
theorem c7_protocol_roundtrip_witness :
    readMessage MAX_BYTES ([0, 0, 0, 7, 123, 34, 97, 34, 58, 49, 125] ++ [9]) =
      some ([([97], Json.num 1)], [9]) :=
  c7_protocol_roundtrip [([97], Json.num 1)]
    [0, 0, 0, 7, 123, 34, 97, 34, 58, 49, 125] [9]
    (by decide) (by decide) (by decide)
